import Mathlib

/-!
Shallow embedding of the resume-parser post-processing core
(`src/resume_parser/postprocessing.py`, `src/resume_parser/schema.py`,
`src/resume_parser/types.py`) and proofs about it.

Strings are modelled as Lean `String` / `List Char`.  Python regular
expressions are embedded as bespoke recursive searchers implementing the
leftmost-match backtracking semantics of each concrete pattern; character
classes (`\s`, `\d`, `[a-z]` under `re.I`, ...) are modelled at the ASCII
level, which is the fragment the program exercises.  `datetime.utcnow()` is
modelled by an explicit `now : Nat × Nat` (year, month) parameter.  Python
exceptions that escape a function are modelled with `Except Unit`.
-/

namespace Resume

/-- ASCII whitespace, modelling Python `str.strip()` and the regex class `\s`. -/
def isWsChar (c : Char) : Bool :=
  c = ' ' || c = '\t' || c = '\n' || c = '\r' || c = '\x0b' || c = '\x0c'

/-- ASCII decimal digit (code points 48-57), modelling the regex class `\d`
and `str.isdigit`. -/
def isDigitChar (c : Char) : Bool :=
  48 ≤ c.toNat && c.toNat ≤ 57

def isAsciiLower (c : Char) : Bool := 97 ≤ c.toNat && c.toNat ≤ 122

def isAsciiUpper (c : Char) : Bool := 65 ≤ c.toNat && c.toNat ≤ 90

/-- ASCII letter: what `[a-z]`/`[A-Za-z]` match under `re.I`. -/
def isAsciiLetter (c : Char) : Bool := isAsciiLower c || isAsciiUpper c

/-- ASCII lower-casing, modelling Python `str.lower()` on the ASCII fragment. -/
def lowerChar (c : Char) : Char :=
  if isAsciiUpper c then Char.ofNat (c.toNat + 32) else c

def lowerL (l : List Char) : List Char := l.map lowerChar

def lowerStr (s : String) : String := ⟨lowerL s.data⟩

/-- Drop a trailing run of characters satisfying `p`. -/
def dropTrailing (p : Char → Bool) (l : List Char) : List Char :=
  (l.reverse.dropWhile p).reverse

/-- Strip characters satisfying `p` from both ends. -/
def stripL (p : Char → Bool) (l : List Char) : List Char :=
  dropTrailing p (l.dropWhile p)

/-- Python `str.strip()` (no argument: whitespace). -/
def pyStrip (s : String) : String := ⟨stripL isWsChar s.data⟩

/-- Python `str.strip(chars)`: strip any of the given characters from both ends. -/
def pyStripSet (cs : List Char) (s : String) : String :=
  ⟨stripL (fun c => cs.contains c) s.data⟩

/-- Does `pat` occur as a contiguous substring of `t`? (Python `pat in t`.) -/
def containsSub (pat : List Char) : List Char → Bool
  | [] => pat.isEmpty
  | t@(_ :: rest) => pat.isPrefixOf t || containsSub pat rest

/-- Index of the first occurrence of `pat` in `t` (Python `str.index`/`find`). -/
def findSubIdx (pat : List Char) : List Char → Option Nat
  | [] => if pat.isEmpty then some 0 else none
  | t@(_ :: rest) =>
    if pat.isPrefixOf t then some 0
    else (findSubIdx pat rest).map (· + 1)

/-- First `some` result of `f` over a list, in order. -/
def firstSome {α β : Type} (f : α → Option β) : List α → Option β
  | [] => none
  | x :: xs => match f x with | some r => some r | none => firstSome f xs

/-- Leftmost-match regex search driver: try the position matcher `f` at every
suffix, left to right. -/
def searchL {β : Type} (f : List Char → Option β) : List Char → Option β
  | [] => f []
  | l@(_ :: rest) => match f l with | some r => some r | none => searchL f rest

def digitVal (c : Char) : Nat := c.toNat - 48

/-- The decimal digit characters "%d" renders; only 0-9 is ever reached
(months are at most 99, so `fmt2` passes quotients and remainders below 10). -/
def digitChar (n : Nat) : Char :=
  match n with
  | 0 => '0' | 1 => '1' | 2 => '2' | 3 => '3' | 4 => '4'
  | 5 => '5' | 6 => '6' | 7 => '7' | 8 => '8' | _ => '9'

def digitsToNat (l : List Char) : Nat :=
  l.foldl (fun acc c => 10 * acc + digitVal c) 0

/-- Python `"%02d" % n`, for the month values 0 ≤ n ≤ 99 that can reach it. -/
def fmt2 (n : Nat) : List Char :=
  if n < 10 then ['0', digitChar n] else [digitChar (n / 10), digitChar (n % 10)]

/-! ### Date patterns (postprocessing.py lines 28-47) -/

/-- MONTH_NAMES, also the alternation order of DATE_PATTERNS[0]. -/
def monthNames : List String :=
  ["Jan", "Feb", "Mar", "Apr", "May", "Jun", "Jul", "Aug", "Sep", "Sept", "Oct", "Nov", "Dec"]

/-- The English month-abbreviation table `strptime`'s `%b` accepts
(case-insensitively), with the month numbers it yields. -/
def monthTable : List (List Char × Nat) :=
  [("jan".data, 1), ("feb".data, 2), ("mar".data, 3), ("apr".data, 4),
   ("may".data, 5), ("jun".data, 6), ("jul".data, 7), ("aug".data, 8),
   ("sep".data, 9), ("oct".data, 10), ("nov".data, 11), ("dec".data, 12)]

/-- `datetime.strptime(month[:3], "%b").month`: case-insensitive table
lookup. -/
def parseMonthAbbrev (l : List Char) : Option Nat :=
  (monthTable.find? (fun p => p.1 = lowerL l)).map (·.2)

/-- Case-insensitively match the literal `alt` at the head of the input,
returning the actually matched input characters and the rest. -/
def stripAltCI : List Char → List Char → Option (List Char × List Char)
  | [], rest => some ([], rest)
  | _ :: _, [] => none
  | a :: as, c :: cs =>
    if lowerChar a = lowerChar c then
      (stripAltCI as cs).map (fun r => (c :: r.1, r.2))
    else none

/-- Match `\d{4}` at the head, returning the four digit characters. -/
def take4Digits : List Char → Option (List Char)
  | a :: b :: c :: d :: _ =>
    if isDigitChar a && isDigitChar b && isDigitChar c && isDigitChar d then
      some [a, b, c, d]
    else none
  | _ => none

/-- One alternative of DATE_PATTERNS[0]
(`(Jan|...|Dec)[a-z]*\s+(\d{4})`, re.I) matched at the current position.
After the maximal `[a-z]*` run the next character is a non-letter, and `\s+`
can only match non-letters, so greedy matching needs no backtracking here.
Returns (captured month group, captured year group). -/
def p1TryAlt (s : List Char) (alt : List Char) : Option (List Char × List Char) :=
  match stripAltCI alt s with
  | none => none
  | some (cap, rest) =>
    match rest.dropWhile isAsciiLetter with
    | c :: cs =>
      if isWsChar c then
        match take4Digits (cs.dropWhile isWsChar) with
        | some y => some (cap, y)
        | none => none
      else none
    | [] => none

/-- DATE_PATTERNS[0] matched at the current position: alternatives in order. -/
def p1MatchAt (s : List Char) : Option (List Char × List Char) :=
  firstSome (p1TryAlt s) (monthNames.map String.data)

/-- The optional `(?:[-SLASH](\d{1,2}))?` (SLASH standing for the forward slash) tail of DATE_PATTERNS[1] (greedy). -/
def p2MonthOpt : List Char → Option (List Char)
  | sep :: d1 :: rest =>
    if (sep = '-' || sep = '/') && isDigitChar d1 then
      match rest with
      | d2 :: _ => if isDigitChar d2 then some [d1, d2] else some [d1]
      | [] => some [d1]
    else none
  | _ => none

/-- DATE_PATTERNS[1] (`(\d{4})` with the optional dash-or-slash month tail) matched at the current
position: (year group, optional month group). -/
def p2MatchAt : List Char → Option (List Char × Option (List Char))
  | a :: b :: c :: d :: rest =>
    if isDigitChar a && isDigitChar b && isDigitChar c && isDigitChar d then
      some ([a, b, c, d], p2MonthOpt rest)
    else none
  | _ => none

/-- The `"present" / "current" in text.lower()` fallback of `normalize_date`. -/
def presentCheck (t : List Char) : Option String :=
  if containsSub "present".data (lowerL t) || containsSub "current".data (lowerL t) then
    some "present"
  else none

/-- The DATE_PATTERNS[1] arm of the `normalize_date` loop.  A matched one-digit
month reaches `datetime.strptime(month[:3], "%b")`, which raises ValueError on
a digit, so the loop `continue`s past the last pattern into the
present/current fallback. -/
def ndPattern2 (t : List Char) : Option String :=
  match searchL p2MatchAt t with
  | some (year, some m) =>
    if m.length = 2 then some ⟨year ++ '-' :: fmt2 (digitsToNat m)⟩
    else presentCheck t
  | some (year, none) => some ⟨year⟩
  | none => presentCheck t

/-- `normalize_date` (postprocessing.py lines 65-87).  The month captured by
DATE_PATTERNS[0] is one of the listed abbreviations (case-insensitively), so
its first three characters always parse with `%b`; the `none` branch of
`parseMonthAbbrev` models the ValueError `continue` all the same. -/
def normalize_date (text : String) : Option String :=
  let t := (pyStrip text).data
  match searchL p1MatchAt t with
  | some (month, year) =>
    match parseMonthAbbrev (month.take 3) with
    | some m => some ⟨year ++ '-' :: fmt2 m⟩
    | none => ndPattern2 t
  | none => ndPattern2 t

/-- Characters excluded by `[^-–]` in DATE_RANGE_PATTERN. -/
def rangeDash (c : Char) : Bool := c = '-' || c = '–'

/-- DATE_RANGE_PATTERN (`(?P<start>[^-–]+)[-–](?P<end>.+)`) matched at the
current position.  `[^-–]+` greedily takes the maximal dash-free run; giving
characters back cannot help since `[-–]` only matches a dash, and `.+`
greedily runs to the end of line (`.` does not match newline).
Returns (start group, end group, rest after the match). -/
def rangeMatchAt (s : List Char) : Option (List Char × List Char × List Char) :=
  let run := s.takeWhile (fun c => !rangeDash c)
  if run.isEmpty then none
  else
    match s.drop run.length with
    | _ :: rest =>
      let endCap := rest.takeWhile (fun c => c ≠ '\n')
      if endCap.isEmpty then none
      else some (run, endCap, rest.drop endCap.length)
    | [] => none

/-- Leftmost DATE_RANGE_PATTERN search; also returns the text before the match
(needed for `match.start()` slicing and for `sub`). -/
def rangeSearchAux (pre : List Char) :
    List Char → Option (List Char × List Char × List Char × List Char)
  | [] => none
  | s@(c :: rest) =>
    match rangeMatchAt s with
    | some (st, en, post) => some (pre.reverse, st, en, post)
    | none => rangeSearchAux (c :: pre) rest

def rangeSearch (s : List Char) : Option (List Char × List Char × List Char × List Char) :=
  rangeSearchAux [] s

/-- `DATE_RANGE_PATTERN.sub("", s)`: remove every non-overlapping match,
scanning left to right.  Every match consumes at least three characters, so
fuel `s.length` is never the binding constraint. -/
def rangeSubAux : Nat → List Char → List Char
  | 0, s => s
  | fuel + 1, s =>
    match rangeSearch s with
    | none => s
    | some (pre, _, _, post) => pre ++ rangeSubAux fuel post

def rangeSubAll (s : String) : String := ⟨rangeSubAux s.data.length s.data⟩

/-- `normalize_date_range` (postprocessing.py lines 90-97). -/
def normalize_date_range (text : String) : Option String × Option String :=
  match rangeSearch text.data with
  | some (_, st, en, _) => (normalize_date ⟨st⟩, normalize_date ⟨en⟩)
  | none => (normalize_date text, none)

/-! ### compute_duration (postprocessing.py lines 100-113) -/

/-- `1[0-2]|0[1-9]|[1-9]`: the regex `strptime` uses for `%m`, required to
consume the given characters entirely. -/
def month2Valid : List Char → Bool
  | ['1', c] => c = '0' || c = '1' || c = '2'
  | ['0', c] => isDigitChar c && c ≠ '0'
  | [c] => isDigitChar c && c ≠ '0'
  | _ => false

/-- `datetime.strptime(s, "%Y-%m")`: four digit year, dash, valid month,
nothing left over; year 0 is below `datetime.MINYEAR` and raises. -/
def parseYM (s : String) : Option (Nat × Nat) :=
  match s.data with
  | a :: b :: c :: d :: '-' :: m =>
    if isDigitChar a && isDigitChar b && isDigitChar c && isDigitChar d && month2Valid m then
      let y := digitsToNat [a, b, c, d]
      if y = 0 then none else some (y, digitsToNat m)
    else none
  | _ => none

/-- `compute_duration` with `datetime.utcnow()` modelled by `now`.
`Except.error` models an uncaught `strptime` ValueError; `if not start` is
true for both None and the empty string. -/
def compute_duration (now : Nat × Nat) (start : Option String) (stop : Option String) :
    Except Unit (Option Int) :=
  match start with
  | none => .ok none
  | some s =>
    if s = "" then .ok none
    else if s = "present" then .ok none
    else
      match (match stop with
             | none => Except.ok now
             | some e =>
               if e = "present" then Except.ok now
               else
                 match parseYM (if e.length = 4 then e ++ "-01" else e) with
                 | some d => Except.ok d
                 | none => Except.error ()) with
      | .error _ => .error ()
      | .ok ed =>
        match parseYM (if s.length = 4 then s ++ "-01" else s) with
        | none => .error ()
        | some sd =>
          .ok (some (max (((ed.1 : Int) - (sd.1 : Int)) * 12 + ((ed.2 : Int) - (sd.2 : Int))) 0))

/-! ### Data model (types.py) -/

/-- BoundingBox in the 0-1000 normalized coordinate space. -/
structure BoundingBox where
  x0 : Int
  y0 : Int
  x1 : Int
  y1 : Int
deriving DecidableEq

/-- Token: a positioned text unit.  The open `Dict[str, Any]` metadata is
modelled at the integer-valued fragment the core reads ("line",
"column_id"). -/
structure Token where
  text : String
  bbox : BoundingBox
  page : Nat
  metadata : List (String × Int) := []
deriving DecidableEq

structure PageMetadata where
  width : Int
  height : Int
  number : Nat
  rotation : Int := 0
  image_path : Option String := none
deriving DecidableEq

structure PageContent where
  metadata : PageMetadata
  tokens : List Token
deriving DecidableEq

structure DocumentContent where
  pages : List PageContent
  raw_text : String
  file_path : String
deriving DecidableEq

/-- The `DocumentContent.tokens` property: all pages' tokens, in page order. -/
def DocumentContent.tokens (d : DocumentContent) : List Token :=
  (d.pages.map PageContent.tokens).flatten

/-- TokenEmbedding; the float payload (modelled as ℚ) is never inspected by
the core, only the list's length is. -/
structure TokenEmbedding where
  token : Token
  embedding : List Rat
  logits : Option (List Rat) := none

/-! ### Schema (schema.py) -/

/-- `_normalize_present`. -/
def normalizePresent (value : String) : String :=
  if lowerStr value = "present" then "Present" else value

/-- `datetime.strptime(n, "%Y")` on a length-4 string succeeds iff the four
characters are digits and the year is at least `datetime.MINYEAR = 1`. -/
def parseY4 (s : String) : Bool :=
  match s.data with
  | [a, b, c, d] =>
    isDigitChar a && isDigitChar b && isDigitChar c && isDigitChar d &&
      digitsToNat [a, b, c, d] ≠ 0
  | _ => false

/-- `_validate_date` (schema.py lines 17-29); `Except.error` models the
ValueError a failing `strptime` raises. -/
def validate_date (value : String) : Except Unit (Option String) :=
  let n := pyStrip value
  if n = "" then .ok none
  else if lowerStr n = "present" then .ok (some "Present")
  else if n.length = 4 then
    if parseY4 n then .ok (some n) else .error ()
  else
    match parseYM n with
    | some _ => .ok (some n)
    | none => .error ()

/-- The `if self.start_date: self.start_date = _validate_date(...)` step of
the dataclass post-init hooks; a falsy value (None or "") is left alone. -/
def postDate (d : Option String) : Except Unit (Option String) :=
  match d with
  | none => .ok none
  | some s => if s = "" then .ok (some s) else validate_date s

/-- End-date variant: `_normalize_present` runs before `_validate_date`. -/
def postEndDate (d : Option String) : Except Unit (Option String) :=
  match d with
  | none => .ok none
  | some s => if s = "" then .ok (some s) else validate_date (normalizePresent s)

/-- The `[item.strip() for item in items if item and item.strip()]`
list-cleanup step shared by WorkExperience.description and
Project.technologies. -/
def cleanStrList (items : List String) : List String :=
  items.filterMap fun item =>
    if item ≠ "" && pyStrip item ≠ "" then some (pyStrip item) else none

structure Contact where
  name : Option String := none
  email : Option String := none
  phone : Option String := none
  website : Option String := none
  location : Option String := none
  raw : Option String := none
deriving DecidableEq

structure Education where
  institution : Option String := none
  degree : Option String := none
  field_of_study : Option String := none
  start_date : Option String := none
  end_date : Option String := none
  grade : Option String := none
  location : Option String := none
deriving DecidableEq

/-- `Education.__post_init__` run by the dataclass constructor. -/
def Education.construct (institution degree field_of_study start_date end_date
    grade location : Option String) : Except Unit Education := do
  let sd ← postDate start_date
  let ed ← postEndDate end_date
  pure { institution, degree, field_of_study, start_date := sd, end_date := ed,
         grade, location }

structure WorkExperience where
  company : Option String := none
  position : Option String := none
  start_date : Option String := none
  end_date : Option String := none
  duration_months : Option Int := none
  location : Option String := none
  description : List String := []
deriving DecidableEq

/-- `WorkExperience.__post_init__` run by the dataclass constructor. -/
def WorkExperience.construct (company position start_date end_date : Option String)
    (duration_months : Option Int) (location : Option String)
    (description : List String) : Except Unit WorkExperience := do
  let sd ← postDate start_date
  let ed ← postEndDate end_date
  pure { company, position, start_date := sd, end_date := ed, duration_months,
         location, description := cleanStrList description }

structure Skill where
  name : Option String := none
  category : Option String := none
  proficiency : Option String := none
deriving DecidableEq

structure Certification where
  name : Option String := none
  issuer : Option String := none
  date : Option String := none
deriving DecidableEq

/-- The `try: self.date = _validate_date(self.date) except ValueError: keep`
step shared by Certification and Publication post-init (falsy dates are left
alone). -/
def dateKeepInvalid (date : Option String) : Option String :=
  match date with
  | none => none
  | some s =>
    if s = "" then some s
    else match validate_date s with
      | .ok v => v
      | .error _ => some s

/-- `Certification.__post_init__`: the date validation's ValueError is caught
and the raw value kept, so construction is total. -/
def Certification.construct (name issuer date : Option String) : Certification :=
  { name, issuer, date := dateKeepInvalid date }

structure Project where
  name : Option String := none
  role : Option String := none
  start_date : Option String := none
  end_date : Option String := none
  description : Option String := none
  technologies : List String := []
deriving DecidableEq

/-- `Project.__post_init__` run by the dataclass constructor. -/
def Project.construct (name role start_date end_date description : Option String)
    (technologies : List String) : Except Unit Project := do
  let sd ← postDate start_date
  let ed ← postEndDate end_date
  pure { name, role, start_date := sd, end_date := ed, description,
         technologies := cleanStrList technologies }

structure Publication where
  title : Option String := none
  venue : Option String := none
  date : Option String := none
  description : Option String := none
deriving DecidableEq

/-- `Publication.__post_init__`: like Certification, total. -/
def Publication.construct (title venue date description : Option String) :
    Publication :=
  { title, venue, date := dateKeepInvalid date, description }

structure Language where
  name : Option String := none
  proficiency : Option String := none
deriving DecidableEq

structure OtherSection where
  label : Option String := none
  content : Option String := none
deriving DecidableEq

structure Meta where
  source : Option String := none
  notes : Option String := none
deriving DecidableEq

structure ResumeOutput where
  contact : Contact := {}
  education : List Education := []
  work_experience : List WorkExperience := []
  skills : List Skill := []
  certifications : List Certification := []
  projects : List Project := []
  publications : List Publication := []
  languages : List Language := []
  other_sections : List OtherSection := []
  meta : Meta := {}
deriving DecidableEq

/-! Raw constructor arguments per entry type, modelling a call of the Python
dataclass constructor (whose `__post_init__` may rewrite fields or raise). -/

structure EducationArgs where
  institution : Option String := none
  degree : Option String := none
  field_of_study : Option String := none
  start_date : Option String := none
  end_date : Option String := none
  grade : Option String := none
  location : Option String := none

def Education.ofArgs (a : EducationArgs) : Except Unit Education :=
  Education.construct a.institution a.degree a.field_of_study a.start_date
    a.end_date a.grade a.location

structure WorkArgs where
  company : Option String := none
  position : Option String := none
  start_date : Option String := none
  end_date : Option String := none
  duration_months : Option Int := none
  location : Option String := none
  description : List String := []

def WorkExperience.ofArgs (a : WorkArgs) : Except Unit WorkExperience :=
  WorkExperience.construct a.company a.position a.start_date a.end_date
    a.duration_months a.location a.description

structure CertArgs where
  name : Option String := none
  issuer : Option String := none
  date : Option String := none

def Certification.ofArgs (a : CertArgs) : Certification :=
  Certification.construct a.name a.issuer a.date

structure ProjectArgs where
  name : Option String := none
  role : Option String := none
  start_date : Option String := none
  end_date : Option String := none
  description : Option String := none
  technologies : List String := []

def Project.ofArgs (a : ProjectArgs) : Except Unit Project :=
  Project.construct a.name a.role a.start_date a.end_date a.description
    a.technologies

structure PubArgs where
  title : Option String := none
  venue : Option String := none
  date : Option String := none
  description : Option String := none

def Publication.ofArgs (a : PubArgs) : Publication :=
  Publication.construct a.title a.venue a.date a.description

/-- `ResumeOutput(...)` called with raw entry arguments: each entry runs its
dataclass constructor, then `ResumeOutput.__post_init__` keeps the typed
objects as they are and `validate()` (list-type check on skills) passes by
typing. -/
def buildResume (contact : Contact) (education : List EducationArgs)
    (work : List WorkArgs) (skills : List Skill) (certifications : List CertArgs)
    (projects : List ProjectArgs) (publications : List PubArgs)
    (languages : List Language) (others : List OtherSection) (meta : Meta) :
    Except Unit ResumeOutput := do
  let ed ← education.mapM Education.ofArgs
  let wk ← work.mapM WorkExperience.ofArgs
  let pj ← projects.mapM Project.ofArgs
  pure { contact, education := ed, work_experience := wk, skills,
         certifications := certifications.map Certification.ofArgs,
         projects := pj, publications := publications.map Publication.ofArgs,
         languages, other_sections := others, meta }

/-! ### Serialization (schema.py to_dict / from_dict) -/

/-- The plain key-value tree `to_dict` serializes into. -/
inductive PVal where
  | null
  | str (s : String)
  | intv (n : Int)
  | arr (xs : List PVal)
  | obj (fields : List (String × PVal))

def optStrP : Option String → PVal
  | none => .null
  | some s => .str s

def optIntP : Option Int → PVal
  | none => .null
  | some n => .intv n

def Contact.to_dict (c : Contact) : PVal :=
  .obj [("name", optStrP c.name), ("email", optStrP c.email),
        ("phone", optStrP c.phone), ("website", optStrP c.website),
        ("location", optStrP c.location), ("raw", optStrP c.raw)]

def Education.to_dict (e : Education) : PVal :=
  .obj [("institution", optStrP e.institution), ("degree", optStrP e.degree),
        ("field_of_study", optStrP e.field_of_study),
        ("start_date", optStrP e.start_date), ("end_date", optStrP e.end_date),
        ("grade", optStrP e.grade), ("location", optStrP e.location)]

def WorkExperience.to_dict (w : WorkExperience) : PVal :=
  .obj [("company", optStrP w.company), ("position", optStrP w.position),
        ("start_date", optStrP w.start_date), ("end_date", optStrP w.end_date),
        ("duration_months", optIntP w.duration_months),
        ("location", optStrP w.location),
        ("description", .arr (w.description.map PVal.str))]

def Skill.to_dict (s : Skill) : PVal :=
  .obj [("name", optStrP s.name), ("category", optStrP s.category),
        ("proficiency", optStrP s.proficiency)]

def Certification.to_dict (c : Certification) : PVal :=
  .obj [("name", optStrP c.name), ("issuer", optStrP c.issuer),
        ("date", optStrP c.date)]

def Project.to_dict (p : Project) : PVal :=
  .obj [("name", optStrP p.name), ("role", optStrP p.role),
        ("start_date", optStrP p.start_date), ("end_date", optStrP p.end_date),
        ("description", optStrP p.description),
        ("technologies", .arr (p.technologies.map PVal.str))]

def Publication.to_dict (p : Publication) : PVal :=
  .obj [("title", optStrP p.title), ("venue", optStrP p.venue),
        ("date", optStrP p.date), ("description", optStrP p.description)]

def Language.to_dict (l : Language) : PVal :=
  .obj [("name", optStrP l.name), ("proficiency", optStrP l.proficiency)]

def OtherSection.to_dict (o : OtherSection) : PVal :=
  .obj [("label", optStrP o.label), ("content", optStrP o.content)]

/-- `Meta.to_dict` drops keys whose value is None. -/
def Meta.to_dict (m : Meta) : PVal :=
  .obj ((match m.source with
         | some s => [("source", PVal.str s)]
         | none => []) ++
        (match m.notes with
         | some s => [("notes", PVal.str s)]
         | none => []))

def ResumeOutput.to_dict (r : ResumeOutput) : PVal :=
  .obj [("contact", r.contact.to_dict),
        ("education", .arr (r.education.map Education.to_dict)),
        ("work_experience", .arr (r.work_experience.map WorkExperience.to_dict)),
        ("skills", .arr (r.skills.map Skill.to_dict)),
        ("certifications", .arr (r.certifications.map Certification.to_dict)),
        ("projects", .arr (r.projects.map Project.to_dict)),
        ("publications", .arr (r.publications.map Publication.to_dict)),
        ("languages", .arr (r.languages.map Language.to_dict)),
        ("other_sections", .arr (r.other_sections.map OtherSection.to_dict)),
        ("meta", r.meta.to_dict)]

/-- `payload.get(k)`: first binding of `k`. -/
def pGet (fields : List (String × PVal)) (k : String) : Option PVal :=
  (fields.find? (fun p => p.1 = k)).map (·.2)

/-- Keyword expansion `Cls(**d)` raises TypeError on an unexpected key. -/
def keysSub (fields : List (String × PVal)) (allowed : List String) : Bool :=
  fields.all (fun p => allowed.contains p.1)

/-- Decode an `Optional[str]` field: a missing key yields the dataclass
default None.  Python's dynamic typing would accept a value of any type here;
the embedding covers the well-typed payloads `to_dict` produces. -/
def decOptStr : Option PVal → Except Unit (Option String)
  | none => .ok none
  | some .null => .ok none
  | some (.str s) => .ok (some s)
  | some _ => .error ()

def decOptInt : Option PVal → Except Unit (Option Int)
  | none => .ok none
  | some .null => .ok none
  | some (.intv n) => .ok (some n)
  | some _ => .error ()

def decStrList : Option PVal → Except Unit (List String)
  | none => .ok []
  | some (.arr xs) =>
    xs.mapM (fun v => match v with | .str s => Except.ok s | _ => Except.error ())
  | some _ => .error ()

def decodeContact (v : PVal) : Except Unit Contact :=
  match v with
  | .obj fs =>
    if keysSub fs ["name", "email", "phone", "website", "location", "raw"] then do
      let name ← decOptStr (pGet fs "name")
      let email ← decOptStr (pGet fs "email")
      let phone ← decOptStr (pGet fs "phone")
      let website ← decOptStr (pGet fs "website")
      let location ← decOptStr (pGet fs "location")
      let raw ← decOptStr (pGet fs "raw")
      pure { name, email, phone, website, location, raw }
    else .error ()
  | _ => .error ()

/-- `Education(**item)` on a payload dict. -/
def decodeEducation (v : PVal) : Except Unit Education :=
  match v with
  | .obj fs =>
    if keysSub fs ["institution", "degree", "field_of_study", "start_date",
                   "end_date", "grade", "location"] then do
      let institution ← decOptStr (pGet fs "institution")
      let degree ← decOptStr (pGet fs "degree")
      let fos ← decOptStr (pGet fs "field_of_study")
      let sd ← decOptStr (pGet fs "start_date")
      let ed ← decOptStr (pGet fs "end_date")
      let grade ← decOptStr (pGet fs "grade")
      let location ← decOptStr (pGet fs "location")
      Education.construct institution degree fos sd ed grade location
    else .error ()
  | _ => .error ()

def decodeWork (v : PVal) : Except Unit WorkExperience :=
  match v with
  | .obj fs =>
    if keysSub fs ["company", "position", "start_date", "end_date",
                   "duration_months", "location", "description"] then do
      let company ← decOptStr (pGet fs "company")
      let position ← decOptStr (pGet fs "position")
      let sd ← decOptStr (pGet fs "start_date")
      let ed ← decOptStr (pGet fs "end_date")
      let dm ← decOptInt (pGet fs "duration_months")
      let location ← decOptStr (pGet fs "location")
      let description ← decStrList (pGet fs "description")
      WorkExperience.construct company position sd ed dm location description
    else .error ()
  | _ => .error ()

def decodeSkill (v : PVal) : Except Unit Skill :=
  match v with
  | .obj fs =>
    if keysSub fs ["name", "category", "proficiency"] then do
      let name ← decOptStr (pGet fs "name")
      let category ← decOptStr (pGet fs "category")
      let proficiency ← decOptStr (pGet fs "proficiency")
      pure { name, category, proficiency }
    else .error ()
  | _ => .error ()

def decodeCertification (v : PVal) : Except Unit Certification :=
  match v with
  | .obj fs =>
    if keysSub fs ["name", "issuer", "date"] then do
      let name ← decOptStr (pGet fs "name")
      let issuer ← decOptStr (pGet fs "issuer")
      let date ← decOptStr (pGet fs "date")
      pure (Certification.construct name issuer date)
    else .error ()
  | _ => .error ()

def decodeProject (v : PVal) : Except Unit Project :=
  match v with
  | .obj fs =>
    if keysSub fs ["name", "role", "start_date", "end_date", "description",
                   "technologies"] then do
      let name ← decOptStr (pGet fs "name")
      let role ← decOptStr (pGet fs "role")
      let sd ← decOptStr (pGet fs "start_date")
      let ed ← decOptStr (pGet fs "end_date")
      let description ← decOptStr (pGet fs "description")
      let technologies ← decStrList (pGet fs "technologies")
      Project.construct name role sd ed description technologies
    else .error ()
  | _ => .error ()

def decodePublication (v : PVal) : Except Unit Publication :=
  match v with
  | .obj fs =>
    if keysSub fs ["title", "venue", "date", "description"] then do
      let title ← decOptStr (pGet fs "title")
      let venue ← decOptStr (pGet fs "venue")
      let date ← decOptStr (pGet fs "date")
      let description ← decOptStr (pGet fs "description")
      pure (Publication.construct title venue date description)
    else .error ()
  | _ => .error ()

def decodeLanguage (v : PVal) : Except Unit Language :=
  match v with
  | .obj fs =>
    if keysSub fs ["name", "proficiency"] then do
      let name ← decOptStr (pGet fs "name")
      let proficiency ← decOptStr (pGet fs "proficiency")
      pure { name, proficiency }
    else .error ()
  | _ => .error ()

def decodeOther (v : PVal) : Except Unit OtherSection :=
  match v with
  | .obj fs =>
    if keysSub fs ["label", "content"] then do
      let label ← decOptStr (pGet fs "label")
      let content ← decOptStr (pGet fs "content")
      pure { label, content }
    else .error ()
  | _ => .error ()

def decodeMeta (v : PVal) : Except Unit Meta :=
  match v with
  | .obj fs =>
    if keysSub fs ["source", "notes"] then do
      let source ← decOptStr (pGet fs "source")
      let notes ← decOptStr (pGet fs "notes")
      pure { source, notes }
    else .error ()
  | _ => .error ()

/-- A list-valued payload entry: a missing key yields the default `[]`,
anything but a list fails in `__post_init__`'s iteration. -/
def decListWith {α : Type} (dec : PVal → Except Unit α) :
    Option PVal → Except Unit (List α)
  | none => .ok []
  | some (.arr xs) => xs.mapM dec
  | some _ => .error ()

/-- `ResumeOutput.from_dict` (schema.py lines 225-239), including the entry
conversions `ResumeOutput.__post_init__` performs on the dict payloads. -/
def ResumeOutput.from_dict (p : PVal) : Except Unit ResumeOutput :=
  match p with
  | .obj fs => do
    let contact ← decodeContact ((pGet fs "contact").getD (.obj []))
    let education ← decListWith decodeEducation (pGet fs "education")
    let work ← decListWith decodeWork (pGet fs "work_experience")
    let skills ← decListWith decodeSkill (pGet fs "skills")
    let certifications ← decListWith decodeCertification (pGet fs "certifications")
    let projects ← decListWith decodeProject (pGet fs "projects")
    let publications ← decListWith decodePublication (pGet fs "publications")
    let languages ← decListWith decodeLanguage (pGet fs "languages")
    let other_sections ← decListWith decodeOther (pGet fs "other_sections")
    let meta ← decodeMeta ((pGet fs "meta").getD (.obj []))
    pure { contact, education, work_experience := work, skills, certifications,
           projects, publications, languages, other_sections, meta }
  | _ => .error ()

/-! ### Post-processing (postprocessing.py lines 116-462) -/

/-- `_join_tokens`: texts joined with single spaces, then stripped. -/
def joinTokens (tokens : List Token) : String :=
  pyStrip (String.intercalate " " (tokens.map Token.text))

/-- Line index source: metadata key "line" when present, else `y0 // 10`
(Python floor division). -/
def lineIndex (t : Token) : Int :=
  match (t.metadata.find? (fun p => p.1 = "line")).map (·.2) with
  | some v => v
  | none => Int.fdiv t.bbox.y0 10

/-- defaultdict-style append under key `k` (insertion order preserved). -/
def insertLine (m : List (Int × List Token)) (k : Int) (t : Token) :
    List (Int × List Token) :=
  match m with
  | [] => [(k, [t])]
  | (k', ts) :: rest =>
    if k' = k then (k', ts ++ [t]) :: rest else (k', ts) :: insertLine rest k t

/-- `sorted(lines.items())` (keys are distinct, so key order decides). -/
def insertSorted (p : Int × List Token) :
    List (Int × List Token) → List (Int × List Token)
  | [] => [p]
  | q :: rest => if p.1 ≤ q.1 then p :: q :: rest else q :: insertSorted p rest

def sortByKey (l : List (Int × List Token)) : List (Int × List Token) :=
  l.foldr insertSorted []

/-- `group_tokens_by_line` (postprocessing.py lines 120-129). -/
def group_tokens_by_line (tokens : List Token) : List (Int × List Token) :=
  sortByKey (tokens.foldl (fun m t => insertLine m (lineIndex t) t) [])

/-- `tokens_to_lines`: joined line texts, empties dropped. -/
def tokens_to_lines (tokens : List Token) : List String :=
  (group_tokens_by_line tokens).filterMap fun p =>
    let s := joinTokens p.2
    if s = "" then none else some s

/-- SECTION_KEYWORDS in dict insertion order; the values are already
lower-case, so the `kw.lower()` comprehension in `detect_sections` is the
identity on them. -/
def SECTION_KEYWORDS : List (String × List String) :=
  [("education", ["education", "academic", "university", "college"]),
   ("work_experience", ["experience", "employment", "career", "work history"]),
   ("skills", ["skills", "technologies", "technical", "tools"]),
   ("certifications", ["certification", "certifications", "licenses", "license"]),
   ("projects", ["project", "projects", "portfolio"]),
   ("publications", ["publication", "publications", "papers", "articles"]),
   ("languages", ["languages", "language"])]

/-- The keyword-matching step for one token: lower-case the text, strip ':'
from both ends, return the first section (in dict order) whose keyword list
contains the word exactly. -/
def sectionOf (t : Token) : Option String :=
  let w := pyStripSet [':'] (lowerStr t.text)
  (SECTION_KEYWORDS.find? (fun p => p.2.contains w)).map (·.1)

/-- The single pass of `detect_sections`: the (bucket, token) append events in
order, starting from the given current-section label; keyword tokens switch
the label and are appended nowhere. -/
def sectionAssign : List Token → String → List (String × Token)
  | [], _ => []
  | t :: ts, cur =>
    match sectionOf t with
    | some s => sectionAssign ts s
    | none => (cur, t) :: sectionAssign ts cur

/-- `detect_sections` (postprocessing.py lines 142-157): bucket `k` collects,
in order, the tokens appended under `k`; an unseen key reads as the
defaultdict's []. -/
def detect_sections (tokens : List Token) (k : String) : List Token :=
  (sectionAssign tokens "other_sections").filterMap
    (fun p => if p.1 = k then some p.2 else none)

/-- Every label a token can be bucketed under. -/
def sectionLabels : List String :=
  ["education", "work_experience", "skills", "certifications", "projects",
   "publications", "languages", "other_sections"]

/-! #### Contact extraction regexes -/

def isEmailLocalChar (c : Char) : Bool :=
  isAsciiLetter c || isDigitChar c || c = '.' || c = '_' || c = '%' ||
    c = '+' || c = '-'

def isEmailDomChar (c : Char) : Bool :=
  isAsciiLetter c || isDigitChar c || c = '.' || c = '-'

/-- Backtracking step of the email pattern's domain: in the maximal
domain-character run, pick the rightmost '.' followed by at least two letters
(the greedy `+` gives back as little as possible); the returned list is the
portion of the run the match consumes. -/
def domMatch : List Char → Option (List Char)
  | [] => none
  | c :: rest =>
    match domMatch rest with
    | some m => some (c :: m)
    | none =>
      if c = '.' then
        let letters := rest.takeWhile isAsciiLetter
        if 2 ≤ letters.length then some ('.' :: letters) else none
      else none

/-- The email regex of `extract_contact` matched at the current position:
local-part run, '@', domain run with a dot-TLD tail.  The '@' is outside both
character classes, so the greedy runs need no backtracking across it. -/
def emailMatchAt (s : List Char) : Option (List Char) :=
  let localRun := s.takeWhile isEmailLocalChar
  if localRun.isEmpty then none
  else
    match s.drop localRun.length with
    | '@' :: rest =>
      (match rest.takeWhile isEmailDomChar with
       | [] => none
       | c :: crest =>
         match domMatch crest with
         | some m => some (localRun ++ '@' :: c :: m)
         | none => none)
    | _ => none

def isPhoneMid (c : Char) : Bool :=
  isDigitChar c || isWsChar c || c = '(' || c = ')' || c = '.' || c = '-'

/-- Largest k with 7 ≤ k < run.length and run[k] a digit: the greedy
`[\d\s().-]{7,}` gives back as little as possible before the final `\d`. -/
def phoneTailAux (run : List Char) : Nat → Option (List Char × Char)
  | 0 => none
  | k + 1 =>
    if 7 ≤ k then
      match run.get? k with
      | some c => if isDigitChar c then some (run.take k, c) else phoneTailAux run k
      | none => phoneTailAux run k
    else none

/-- The phone regex `\+?\d[\d\s().-]{7,}\d` matched at the current position. -/
def phoneMatchAt (s : List Char) : Option (List Char) :=
  let (plus, s1) :=
    match s with
    | '+' :: rest => (['+'], rest)
    | _ => (([] : List Char), s)
  match s1 with
  | d0 :: s2 =>
    if isDigitChar d0 then
      let run := s2.takeWhile isPhoneMid
      match phoneTailAux run run.length with
      | some (mid, dlast) => some (plus ++ d0 :: (mid ++ [dlast]))
      | none => none
    else none
  | [] => none

/-- Match a case-sensitive literal at the head. -/
def dropLit : List Char → List Char → Option (List Char)
  | [], rest => some rest
  | _ :: _, [] => none
  | a :: as, c :: cs => if a = c then dropLit as cs else none

/-- The URL regex `https?://\S+` matched at the current position
(case-sensitive: the pattern is compiled without re.I). -/
def urlMatchAt (s : List Char) : Option (List Char) :=
  match dropLit "http".data s with
  | none => none
  | some r1 =>
    let (sCap, r2) :=
      match r1 with
      | 's' :: rest => ((['s'] : List Char), rest)
      | _ => (([] : List Char), r1)
    match dropLit "://".data r2 with
    | none => none
    | some r3 =>
      let body := r3.takeWhile (fun c => !isWsChar c)
      if body.isEmpty then none
      else some ("http".data ++ sCap ++ "://".data ++ body)

/-- The location test `re.search(r"\d+\s+[A-Za-z]", line)` at one position. -/
def locMatchAt (s : List Char) : Option Unit :=
  let ds := s.takeWhile isDigitChar
  if ds.isEmpty then none
  else
    match s.drop ds.length with
    | c :: cs =>
      if isWsChar c then
        match cs.dropWhile isWsChar with
        | c2 :: _ => if isAsciiLetter c2 then some () else none
        | [] => none
      else none
    | [] => none

def locSearch (s : String) : Bool := (searchL locMatchAt s.data).isSome

/-- Python `str.split()` with no argument: whitespace runs separate words, no
empties; `acc` holds the current word reversed. -/
def pySplitWsAux : List Char → List Char → List String
  | [], acc => if acc.isEmpty then [] else [⟨acc.reverse⟩]
  | c :: rest, acc =>
    if isWsChar c then
      if acc.isEmpty then pySplitWsAux rest []
      else (⟨acc.reverse⟩ : String) :: pySplitWsAux rest []
    else pySplitWsAux rest (c :: acc)

def pySplitWsL (l : List Char) : List String := pySplitWsAux l []

/-- `_extract_name` (postprocessing.py lines 160-170). -/
def extractName (lines : List String) : Option String :=
  firstSome (fun line =>
    if line = "" then none
    else
      let candidate := pyStrip line
      if containsSub "@".data candidate.data || containsSub "+".data candidate.data ||
          containsSub "http".data candidate.data then none
      else
        let words := pySplitWsL candidate.data
        if 1 < words.length && words.length ≤ 5 then some candidate else none)
    (lines.take 3)

/-- `extract_contact` (postprocessing.py lines 173-196). -/
def extract_contact (document : DocumentContent) (tokens : List Token) : Contact :=
  let lines0 := tokens_to_lines tokens
  let lines :=
    match lines0, document.pages with
    | [], p :: _ => tokens_to_lines (p.tokens.take 50)
    | l, _ => l
  let contact_text := if lines = [] then none else some (String.intercalate "\n" lines)
  let combined := if lines = [] then document.raw_text else String.intercalate " " lines
  let email := (searchL emailMatchAt combined.data).map (fun m => (⟨m⟩ : String))
  let phone := (searchL phoneMatchAt combined.data).map (fun m => (⟨m⟩ : String))
  let website := (searchL urlMatchAt combined.data).map (fun m => (⟨m⟩ : String))
  let location := firstSome
    (fun line => if locSearch line then some (pyStrip line) else none) lines.reverse
  let name := extractName lines
  { name, email, phone, website, location, raw := contact_text }

/-! #### Work experience -/

/-- Last occurrence of `pat` (Python `str.rfind`), as an index. -/
def rfindSub (pat : List Char) : List Char → Option Nat
  | [] => if pat.isEmpty then some 0 else none
  | t@(_ :: rest) =>
    match rfindSub pat rest with
    | some i => some (i + 1)
    | none => if pat.isPrefixOf t then some 0 else none

/-- Split on single characters (`re.split` with a character-class pattern),
keeping empty parts. -/
def splitOnChars (seps : List Char) : List Char → List (List Char)
  | [] => [[]]
  | c :: rest =>
    if seps.contains c then [] :: splitOnChars seps rest
    else
      match splitOnChars seps rest with
      | h :: t => (c :: h) :: t
      | [] => [[c]]

/-- `_split_role_company` (postprocessing.py lines 199-209); returns
(company, position). -/
def split_role_company (text : String) : Option String × Option String :=
  let stripRC := pyStripSet [' ', ',', '-', '|', '•']
  match findSubIdx " at ".data (lowerStr text).data with
  | some idx =>
    let position := stripRC ⟨text.data.take idx⟩
    let company := stripRC ⟨text.data.drop (idx + 4)⟩
    ((if company = "" then none else some company),
     (if position = "" then none else some position))
  | none =>
    let parts := (splitOnChars [',', '|'] text.data).filterMap fun p =>
      if pyStrip ⟨p⟩ = "" then none else some (stripRC ⟨p⟩)
    match parts with
    | p0 :: p1 :: _ => (some p1, some p0)
    | _ =>
      let t := stripRC text
      ((if t = "" then none else some t), none)

/-- Leading bullet glyphs of BULLET_PATTERN (U+2022 appears twice in the
class). -/
def isBulletChar (c : Char) : Bool :=
  c = '•' || c = '-' || c = '‣' || c = '◦' || c = '*'

/-- `_clean_bullet`: the anchored `^[bullets]+\s*` sub followed by a strip.
When no leading bullet glyph is present the sub is a no-op; composing
drop-bullets, drop-whitespace and strip yields the same string either way. -/
def clean_bullet (text : String) : String :=
  pyStrip ⟨(text.data.dropWhile isBulletChar).dropWhile isWsChar⟩

/-- `build_work_entries` (postprocessing.py lines 216-263); the state is
(finished entries, open entry). -/
def build_work_entries (now : Nat × Nat) (tokens : List Token) :
    Except Unit (List WorkExperience) := do
  let lines := tokens_to_lines tokens
  let res ← lines.foldlM
    (fun (st : List WorkExperience × Option WorkExperience) rawLine => do
      let line := pyStrip rawLine
      if line = "" then pure st
      else
        let dates := normalize_date_range line
        if dates.1.isSome || dates.2.isSome then
          let heading :=
            match rangeSearch line.data with
            | some (pre, _, _, _) => pyStripSet [' ', ',', '-', '•'] ⟨pre⟩
            | none =>
              match firstSome
                  (fun m => rfindSub (lowerStr m).data (lowerStr line).data)
                  monthNames with
              | some i => pyStripSet [' ', ',', '-', '•'] ⟨line.data.take i⟩
              | none => line
          let rc := split_role_company heading
          let entries := match st.2 with
            | some cur => st.1 ++ [cur]
            | none => st.1
          let dur ← compute_duration now dates.1 dates.2
          let w ← WorkExperience.construct rc.1 rc.2 dates.1 dates.2 dur none []
          pure (entries, some w)
        else
          match st.2 with
          | none =>
            let rc := split_role_company line
            let w ← WorkExperience.construct rc.1 rc.2 none none none none []
            pure (st.1, some w)
          | some cur =>
            let bullets := (splitOnChars ['\n'] line.data).filterMap fun b =>
              let c := clean_bullet ⟨b⟩
              if c = "" then none else some c
            pure (st.1, some { cur with description := cur.description ++ bullets }))
    ([], none)
  pure (match res.2 with
        | some w => res.1 ++ [w]
        | none => res.1)

/-! #### Education -/

/-- The characters "'s": the optional possessive tail of the first two
DEGREE_PATTERN alternatives. -/
def apoS : List Char := ['\'', 's']

/-- One `X\.\s?Y` DEGREE_PATTERN alternative (case-insensitive literal,
literal dot, optional single whitespace, case-insensitive literal). -/
def degreeDotAlt (pre suf : String) (s : List Char) : Option (List Char) :=
  match stripAltCI pre.data s with
  | none => none
  | some (cap1, rest) =>
    match rest with
    | '.' :: rest2 =>
      let (wsCap, rest3) :=
        match rest2 with
        | c :: cs => if isWsChar c then ([c], cs) else (([] : List Char), rest2)
        | [] => (([] : List Char), rest2)
      (match stripAltCI suf.data rest3 with
       | some (cap2, _) => some (cap1 ++ '.' :: (wsCap ++ cap2))
       | none => none)
    | _ => none

/-- DEGREE_PATTERN matched at the current position: alternatives in the
regex's order, each greedy on its optional part. -/
def degreeMatchAt (s : List Char) : Option (List Char) :=
  match stripAltCI "Bachelor".data s with
  | some (cap, rest) =>
    (match stripAltCI apoS rest with
     | some (cap2, _) => some (cap ++ cap2)
     | none => some cap)
  | none =>
  match stripAltCI "Master".data s with
  | some (cap, rest) =>
    (match stripAltCI apoS rest with
     | some (cap2, _) => some (cap ++ cap2)
     | none => some cap)
  | none =>
  match degreeDotAlt "B" "Sc" s with
  | some m => some m
  | none =>
  match degreeDotAlt "M" "Sc" s with
  | some m => some m
  | none =>
  match degreeDotAlt "B" "Eng" s with
  | some m => some m
  | none =>
  match degreeDotAlt "M" "Eng" s with
  | some m => some m
  | none =>
  match stripAltCI "MBA".data s with
  | some (cap, _) => some cap
  | none =>
  match stripAltCI "Ph".data s with
  | some (cap, rest) =>
    (match rest with
     | '.' :: rest2 =>
       (match stripAltCI "D".data rest2 with
        | some (capd, _) => some (cap ++ '.' :: capd)
        | none => none)
     | _ =>
       match stripAltCI "D".data rest with
       | some (capd, _) => some (cap ++ capd)
       | none => none)
  | none => none

/-- Leftmost DEGREE_PATTERN search, keeping the text before the match and the
match itself (for `.start()` slicing). -/
def degreeSearchAux (pre : List Char) :
    List Char → Option (List Char × List Char)
  | [] => none
  | s@(c :: rest) =>
    match degreeMatchAt s with
    | some m => some (pre.reverse, m)
    | none => degreeSearchAux (c :: pre) rest

def degreeSearch (s : List Char) : Option (List Char × List Char) :=
  degreeSearchAux [] s

def isFieldChar (c : Char) : Bool := isAsciiLetter c || c = '&' || isWsChar c

/-- FIELD_MARKER_PATTERN `(?:in|of)\s+([A-Za-z&\s]+)` matched at the current
position, returning group 1.  The group's class contains `\s`, so when the
maximal class run after the whitespace is empty the greedy `\s+` gives one
trailing whitespace character back to the group. -/
def fieldMatchAt (s : List Char) : Option (List Char) :=
  let afterKw :=
    match stripAltCI "in".data s with
    | some (_, rest) => some rest
    | none => (stripAltCI "of".data s).map (·.2)
  match afterKw with
  | none => none
  | some rest =>
    match rest with
    | c :: cs =>
      if isWsChar c then
        let wsRest := cs.takeWhile isWsChar
        let body := (cs.drop wsRest.length).takeWhile isFieldChar
        if body ≠ [] then some body
        else
          match wsRest.getLast? with
          | some w => some [w]
          | none => none
      else none
    | [] => none

/-- The grade regex `(GPA|Grade)[:\s]+([0-9.]+)` (re.I) matched at the current
position, returning group 2.  The two alternatives cannot match at the same
position, and the two character classes are disjoint, so greedy matching needs
no backtracking. -/
def gpaMatchAt (s : List Char) : Option (List Char) :=
  let afterKw :=
    match stripAltCI "GPA".data s with
    | some (_, rest) => some rest
    | none => (stripAltCI "Grade".data s).map (·.2)
  match afterKw with
  | none => none
  | some rest =>
    match rest with
    | c :: cs =>
      if c = ':' || isWsChar c then
        let sepRun := cs.takeWhile (fun x => x = ':' || isWsChar x)
        let num := (cs.drop sepRun.length).takeWhile (fun x => isDigitChar x || x = '.')
        if num ≠ [] then some num else none
      else none
    | [] => none

/-- `_parse_education_chunk` (postprocessing.py lines 266-297). -/
def parse_education_chunk (chunk : String) : Except Unit Education := do
  let dates := normalize_date_range chunk
  let text :=
    match rangeSearch chunk.data with
    | some (pre, _, _, post) => pyStripSet [' ', ',', '-', '•'] ⟨pre ++ post⟩
    | none => chunk
  let degreeM := degreeSearch text.data
  let degree := degreeM.map (fun r => pyStrip ⟨r.2⟩)
  let fos := (searchL fieldMatchAt text.data).map (fun g => pyStrip ⟨g⟩)
  let institution1 :=
    match degreeM with
    | some (pre, _) =>
      let t := pyStripSet [' ', ',', '-', '•'] ⟨pre⟩
      if t = "" then text else t
    | none => text
  let parts := (splitOnChars [',', '|'] institution1.data).filterMap fun p =>
    let q := pyStrip ⟨p⟩
    if q = "" then none else some q
  let institution := match parts with | p :: _ => p | [] => institution1
  let grade := (searchL gpaMatchAt chunk.data).map (fun g => (⟨g⟩ : String))
  Education.construct (if institution = "" then none else some institution)
    degree fos dates.1 dates.2 grade none

/-- Prepend a character to the first part of a split-in-progress. -/
def consChar (c : Char) : List (List Char) → List (List Char)
  | h :: t => (c :: h) :: t
  | [] => [[c]]

/-- `re.split(r"\n{2,}|•", text)`: delimiters are maximal newline runs of
length at least two, or single bullets.  Recursion is on a fuel initialized
to the list length; every step strictly shortens the list, so the
fuel-exhausted arm is unreachable. -/
def splitNNFuel : Nat → List Char → List (List Char)
  | _, [] => [[]]
  | 0, l => [l]
  | fuel + 1, '•' :: rest => [] :: splitNNFuel fuel rest
  | fuel + 1, '\n' :: rest =>
    match rest with
    | '\n' :: _ => [] :: splitNNFuel fuel (rest.dropWhile (fun c => c = '\n'))
    | _ => consChar '\n' (splitNNFuel fuel rest)
  | fuel + 1, c :: rest => consChar c (splitNNFuel fuel rest)

def splitNNBullet (l : List Char) : List (List Char) := splitNNFuel l.length l

/-- The shared `\n{2,}|•` segmentation with strip-and-drop-empties. -/
def segmentsOf (text : String) : List String :=
  (splitNNBullet text.data).filterMap fun s =>
    let t := pyStrip ⟨s⟩
    if t = "" then none else some t

/-- `build_education_entries` (postprocessing.py lines 300-308). -/
def build_education_entries (tokens : List Token) : Except Unit (List Education) := do
  let text := joinTokens tokens
  if text = "" then pure []
  else
    let segments := segmentsOf text
    let segments := if segments = [] then [text] else segments
    segments.mapM parse_education_chunk

/-- `extract_skills` (postprocessing.py lines 311-327); the fold state is
(skills so far, lower-cased keys seen). -/
def extract_skills (tokens : List Token) : List Skill :=
  let text := joinTokens tokens
  if text = "" then []
  else
    let candidates := splitOnChars [',', ';', '/', '\n', '•'] text.data
    (candidates.foldl
      (fun (st : List Skill × List String) cand =>
        let skill := pyStrip (clean_bullet ⟨cand⟩)
        if skill = "" || 60 < skill.length then st
        else
          let key := lowerStr skill
          if st.2.contains key then st
          else (st.1 ++ [{ name := some skill }], st.2 ++ [key]))
      ([], [])).1

/-- `build_certifications` (postprocessing.py lines 330-342). -/
def build_certifications (tokens : List Token) : List Certification :=
  (tokens_to_lines tokens).filterMap fun line =>
    if line = "" then none
    else
      let name0 := clean_bullet line
      let dates := normalize_date_range name0
      let date := match dates.2 with
        | some e => if e = "" then dates.1 else some e
        | none => dates.1
      let dateTruthy : Bool := match date with | some e => decide (e ≠ "") | none => false
      let name := if dateTruthy then pyStripSet [' ', ',', '-', '•'] (rangeSubAll name0) else name0
      some (Certification.construct (if name = "" then none else some name) none date)

/-- The characters before the first occurrence of `pat` (whole list if
absent): `text.split(pat)[0]` for nonempty `pat`. -/
def takeUntilSub (pat : List Char) : List Char → List Char
  | [] => []
  | t@(c :: rest) => if pat.isPrefixOf t then [] else c :: takeUntilSub pat rest

/-- `build_projects` (postprocessing.py lines 345-369).  No dates are passed
to the Project constructor, so its post-init reduces to the technologies
cleanup and cannot raise. -/
def build_projects (tokens : List Token) : List Project :=
  let text := joinTokens tokens
  if text = "" then []
  else
    (segmentsOf text).map fun segment =>
      let name := pyStrip ⟨takeUntilSub " - ".data segment.data⟩
      let remainder :=
        if name.length < segment.length then
          pyStripSet [' ', '-'] ⟨segment.data.drop name.length⟩
        else ""
      let technologies := (splitOnChars [',', '/', '|'] remainder.data).filterMap fun p =>
        let t := pyStrip ⟨p⟩
        if t ≠ "" && t.length ≤ 40 then some t else none
      { name := if name = "" then none else some name,
        role := none,
        description := if remainder = "" then none else some remainder,
        technologies := cleanStrList technologies }

/-- `build_publications` (postprocessing.py lines 372-385). -/
def build_publications (tokens : List Token) : List Publication :=
  (tokens_to_lines tokens).filterMap fun line =>
    let cleaned := clean_bullet line
    if cleaned = "" then none
    else
      let dates := normalize_date_range cleaned
      let date := match dates.2 with
        | some e => if e = "" then dates.1 else some e
        | none => dates.1
      let dateTruthy : Bool := match date with | some e => decide (e ≠ "") | none => false
      let title := if dateTruthy then pyStripSet [' ', ',', '-', '•'] (rangeSubAll cleaned) else cleaned
      some (Publication.construct (if title = "" then none else some title) none date none)

/-- `build_languages` (postprocessing.py lines 388-402). -/
def build_languages (tokens : List Token) : List Language :=
  let text := joinTokens tokens
  if text = "" then []
  else
    let entries := (splitOnChars [',', '/', '\n', '•'] text.data).filterMap fun p =>
      let t := pyStrip ⟨p⟩
      if t = "" then none else some t
    entries.map fun entry =>
      let split1 := fun (sep : Char) =>
        match findSubIdx [sep] entry.data with
        | some i => (pyStrip ⟨entry.data.take i⟩, some (pyStrip ⟨entry.data.drop (i + 1)⟩))
        | none => (entry, (none : Option String))
      let lf :=
        if containsSub ['-'] entry.data then split1 '-'
        else if containsSub [':'] entry.data then split1 ':'
        else (pyStrip entry, none)
      { name := if lf.1 = "" then none else some lf.1,
        proficiency := match lf.2 with
          | some f => if f = "" then none else some f
          | none => none }

/-- `build_other_sections` (postprocessing.py lines 405-411). -/
def build_other_sections (tokens : List Token) : List OtherSection :=
  if tokens = [] then []
  else
    let text := joinTokens tokens
    if text = "" then []
    else [{ label := some "other", content := some text }]

/-- The section mapping `link_entities` works from: `detect_sections` output
plus the first-50-tokens contact fallback (no keyword maps to "contact", so
with at least one page the fallback always fires when the bucket is empty). -/
def sections_with_fallback (document : DocumentContent) (k : String) : List Token :=
  let s := detect_sections document.tokens
  match document.pages with
  | [] => s k
  | p :: _ =>
    if s "contact" = [] then
      (if k = "contact" then p.tokens.take 50 else s k)
    else s k

/-- `link_entities` (postprocessing.py lines 414-462).  `resume.validate()`
only re-reads date attributes and checks that skills is a list, which holds by
typing; the entry constructors inside the builders are where exceptions can
arise, and they propagate. -/
def link_entities (now : Nat × Nat) (document : DocumentContent)
    (embeddings : List TokenEmbedding) : Except Unit ResumeOutput := do
  let sec := sections_with_fallback document
  let contact := extract_contact document (sec "contact")
  let education ← build_education_entries (sec "education")
  let work ← build_work_entries now (sec "work_experience")
  let skills := extract_skills (sec "skills")
  let certifications := build_certifications (sec "certifications")
  let projects := build_projects (sec "projects")
  let publications := build_publications (sec "publications")
  let languages := build_languages (sec "languages")
  let others := build_other_sections (sec "other_sections")
  let resume : ResumeOutput :=
    { contact, education, work_experience := work, skills, certifications,
      projects, publications, languages, other_sections := others,
      meta := { source := some document.file_path } }
  if embeddings.isEmpty then pure resume
  else
    let note := "token_embeddings=" ++ toString embeddings.length
    let note := match resume.meta.notes with
      | some existing => if existing = "" then note else existing ++ "; " ++ note
      | none => note
    pure { resume with meta := { source := resume.meta.source, notes := some note } }

/-! ### Definitions used to state the claims -/

/-- Tokens listed in ascending x0 order: the within-line ordering the spec
asserts for `group_tokens_by_line`. -/
def ascendingByX0 : List Token → Bool
  | a :: b :: rest => decide (a.bbox.x0 ≤ b.bbox.x0) && ascendingByX0 (b :: rest)
  | _ => true

/-- First-seen case-insensitive de-duplication (first-seen casing kept). -/
def dedupByLower : List String → List String → List String
  | [], _ => []
  | s :: rest, seen =>
    if seen.contains (lowerStr s) then dedupByLower rest seen
    else s :: dedupByLower rest (seen ++ [lowerStr s])

/-- The skills pipeline as the spec words it (for the refinement claim): split
the joined text on commas, semicolons, slashes, newlines and bullets;
bullet-strip each candidate; discard empty or over-60-character candidates;
de-duplicate case-insensitively keeping the first-seen casing, in first-seen
order. -/
def extract_skills_spec (tokens : List Token) : List Skill :=
  let text := joinTokens tokens
  if text = "" then []
  else
    let cands := (splitOnChars [',', ';', '/', '\n', '•'] text.data).map
      (fun c => pyStrip (clean_bullet ⟨c⟩))
    let kept := cands.filter (fun s => decide (s ≠ "") && decide (s.length ≤ 60))
    (dedupByLower kept []).map (fun s => { name := some s })

/-- A date string of the shape `compute_duration`'s contract expects: a
four-digit year `YYYY`, or `YYYY-MM` with month 01-12; the year is at least 1
(`datetime.MINYEAR`, below which even `strptime` raises). -/
def ValidDate (s : String) : Prop :=
  (s.data.length = 4 ∧ s.data.all isDigitChar = true ∧ digitsToNat s.data ≠ 0) ∨
  (∃ y m, s.data = y ++ '-' :: m ∧ y.length = 4 ∧ y.all isDigitChar = true ∧
    digitsToNat y ≠ 0 ∧
    m ∈ (["01", "02", "03", "04", "05", "06", "07", "08", "09", "10", "11",
          "12"] : List String).map String.data)

/-- Chronological index of a valid date in months, a bare year counting as
its January (the code's "-01" padding). -/
def dateVal (s : String) : Nat :=
  match parseYM (if s.length = 4 then s ++ "-01" else s) with
  | some ym => ym.1 * 12 + ym.2
  | none => 0

/-- Lookup in an accumulator keyed by line index (the defaultdict read). -/
def alGet (m : List (Int × List Token)) (k : Int) : List Token :=
  match m.find? (fun p => p.1 = k) with
  | some p => p.2
  | none => []

/-- The current-section label after scanning a token list. -/
def finalSection (ts : List Token) (cur : String) : String :=
  ts.foldl (fun c t => (sectionOf t).getD c) cur

/-! ### Concrete example values used in counterexamples and witnesses -/

def tokEducation : Token := { text := "Education", bbox := ⟨0, 0, 100, 10⟩, page := 0 }

def tokMIT : Token := { text := "MIT", bbox := ⟨0, 20, 100, 30⟩, page := 0 }

def tokHello : Token := { text := "hello", bbox := ⟨0, 0, 100, 10⟩, page := 0 }

def docOnePage : DocumentContent :=
  { pages := [{ metadata := { width := 1000, height := 1000, number := 0 },
                tokens := [tokHello] }],
    raw_text := "hello", file_path := "r.pdf" }

/-- Two tokens on the same line (metadata line 0) with descending x0. -/
def tokRight : Token :=
  { text := "world", bbox := ⟨500, 0, 600, 10⟩, page := 0, metadata := [("line", 0)] }

def tokLeft : Token :=
  { text := "hi", bbox := ⟨100, 0, 200, 10⟩, page := 0, metadata := [("line", 0)] }

/-! ## Supporting lemmas -/

theorem ws_toNat {c : Char} (h : isWsChar c = true) :
    c.toNat = 32 ∨ c.toNat = 9 ∨ c.toNat = 10 ∨ c.toNat = 13 ∨
      c.toNat = 11 ∨ c.toNat = 12 := by
  simp only [isWsChar, Bool.or_eq_true, decide_eq_true_eq] at h
  rcases h with ((((h | h) | h) | h) | h) | h <;> subst h <;> decide

theorem not_ws_of_digit {c : Char} (h : isDigitChar c = true) : isWsChar c = false := by
  cases hw : isWsChar c
  · rfl
  · exfalso
    have hn := ws_toNat hw
    simp only [isDigitChar, Bool.and_eq_true, decide_eq_true_eq] at h
    omega

theorem not_ws_of_dash {c : Char} (h : c = '-') : isWsChar c = false := by
  subst h; decide

theorem dropWhile_eq_self_of_head {p : Char → Bool} :
    ∀ {l : List Char}, (∀ c ∈ l, p c = false) → l.dropWhile p = l
  | [], _ => rfl
  | c :: cs, h => by
    simp [List.dropWhile, h c (by simp)]

theorem stripL_eq_self {p : Char → Bool} {l : List Char}
    (h : ∀ c ∈ l, p c = false) : stripL p l = l := by
  unfold stripL dropTrailing
  rw [dropWhile_eq_self_of_head h,
      dropWhile_eq_self_of_head (fun c hc => h c (List.mem_reverse.mp hc)),
      List.reverse_reverse]

theorem pyStrip_eq_self {s : String} (h : ∀ c ∈ s.data, isWsChar c = false) :
    pyStrip s = s := by
  unfold pyStrip
  rw [stripL_eq_self h]

theorem searchL_cons {β : Type} (f : List Char → Option β) (c : Char) (cs : List Char) :
    searchL f (c :: cs) = match f (c :: cs) with
      | some r => some r
      | none => searchL f cs := rfl

theorem firstSome_eq_none {α β : Type} {f : α → Option β} :
    ∀ {l : List α}, (∀ a ∈ l, f a = none) → firstSome f l = none
  | [], _ => rfl
  | a :: as, h => by
    simp only [firstSome, h a (by simp)]
    exact firstSome_eq_none (fun x hx => h x (by simp [hx]))

theorem firstSome_some {α β : Type} {f : α → Option β} :
    ∀ {l : List α} {r : β}, firstSome f l = some r → ∃ a ∈ l, f a = some r
  | [], r, h => by simp [firstSome] at h
  | a :: as, r, h => by
    simp only [firstSome] at h
    cases hf : f a with
    | some v =>
      rw [hf] at h
      exact ⟨a, by simp, by rw [hf]; exact h⟩
    | none =>
      rw [hf] at h
      obtain ⟨x, hx, hfx⟩ := firstSome_some h
      exact ⟨x, by simp [hx], hfx⟩

theorem stripAltCI_cons_eq_none {a c : Char} {as cs : List Char}
    (h : lowerChar a ≠ lowerChar c) : stripAltCI (a :: as) (c :: cs) = none := by
  simp [stripAltCI, h]

theorem lowerChar_eq_self {c : Char} (h : isAsciiUpper c = false) : lowerChar c = c := by
  simp [lowerChar, h]

/-- Every month-name alternative starts with a letter, so a position whose
first character lower-cases to none of the month initials defeats
DATE_PATTERNS[0]. -/
theorem p1MatchAt_cons_none {c : Char} {cs : List Char}
    (h : ∀ x ∈ (['j', 'f', 'm', 'a', 's', 'o', 'n', 'd'] : List Char),
      lowerChar c ≠ x) : p1MatchAt (c :: cs) = none := by
  apply firstSome_eq_none
  intro alt halt
  fin_cases halt <;>
    · simp only [p1TryAlt]
      rw [stripAltCI_cons_eq_none (fun hx => h _ (by decide) hx.symm)]

theorem lowerChar_digitdash {c : Char}
    (h : isDigitChar c = true ∨ c = '-') :
    ∀ x ∈ (['j', 'f', 'm', 'a', 's', 'o', 'n', 'd'] : List Char), lowerChar c ≠ x := by
  have hself : lowerChar c = c := by
    apply lowerChar_eq_self
    rcases h with h | h
    · simp only [isDigitChar, Bool.and_eq_true, decide_eq_true_eq] at h
      simp only [isAsciiUpper, Bool.and_eq_false_iff, decide_eq_false_iff_not]
      omega
    · subst h; decide
  intro x hx he
  rw [hself] at he
  subst he
  rcases h with h | h
  · simp only [isDigitChar, Bool.and_eq_true, decide_eq_true_eq] at h
    fin_cases hx <;> simp_all
  · fin_cases hx <;> simp_all

/-- DATE_PATTERNS[0] finds nothing in a string of digits and dashes. -/
theorem p1_search_none {l : List Char}
    (h : ∀ c ∈ l, isDigitChar c = true ∨ c = '-') :
    searchL p1MatchAt l = none := by
  induction l with
  | nil => decide
  | cons c cs ih =>
    rw [searchL_cons, p1MatchAt_cons_none (lowerChar_digitdash (h c (by simp)))]
    exact ih (fun x hx => h x (by simp [hx]))

theorem isPrefixOf_length_le {pat l : List Char} (h : pat.isPrefixOf l = true) :
    pat.length ≤ l.length :=
  List.IsPrefix.length_le (List.isPrefixOf_iff_prefix.mp h)

theorem containsSub_false_of_short {pat : List Char} :
    ∀ {l : List Char}, l.length < pat.length → containsSub pat l = false
  | [], h => by
    cases pat with
    | nil => simp at h
    | cons p ps => rfl
  | c :: cs, h => by
    simp only [containsSub, Bool.or_eq_false_iff]
    constructor
    · cases hp : pat.isPrefixOf (c :: cs)
      · rfl
      · exact absurd (isPrefixOf_length_le hp) (by omega)
    · exact containsSub_false_of_short (by simp at h ⊢; omega)

theorem digitsToNat_two_le {m1 m2 : Char} (h1 : isDigitChar m1 = true)
    (h2 : isDigitChar m2 = true) : digitsToNat [m1, m2] ≤ 99 := by
  simp only [isDigitChar, Bool.and_eq_true, decide_eq_true_eq] at h1 h2
  simp only [digitsToNat, List.foldl, digitVal]
  omega

theorem fmt2_digits {n : Nat} (h : n ≤ 99) :
    (fmt2 n).length = 2 ∧ (fmt2 n).all isDigitChar = true := by
  unfold fmt2
  split
  · next hlt =>
    refine ⟨rfl, ?_⟩
    interval_cases n <;> decide
  · next hge =>
    refine ⟨rfl, ?_⟩
    have h1 : n / 10 ≤ 9 := by omega
    have h2 : n % 10 ≤ 9 := by omega
    simp only [List.all_cons, List.all_nil, Bool.and_true, Bool.and_eq_true]
    constructor
    · interval_cases hd : (n / 10) <;> decide
    · interval_cases hm : (n % 10) <;> decide

theorem list_len4 {l : List Char} (h : l.length = 4) :
    ∃ a b c d : Char, l = [a, b, c, d] := by
  cases l with
  | nil => simp at h
  | cons a l1 =>
  cases l1 with
  | nil => simp at h
  | cons b l2 =>
  cases l2 with
  | nil => simp at h
  | cons c l3 =>
  cases l3 with
  | nil => simp at h
  | cons d l4 =>
  cases l4 with
  | nil => exact ⟨a, b, c, d, rfl⟩
  | cons e l5 => simp at h

theorem takeWhile_append_all {p : Char → Bool} :
    ∀ {l r : List Char}, (∀ c ∈ l, p c = true) →
      (l ++ r).takeWhile p = l ++ r.takeWhile p
  | [], r, _ => rfl
  | c :: cs, r, h => by
    simp only [List.cons_append, List.takeWhile_cons, h c (by simp), if_true]
    rw [takeWhile_append_all (fun x hx => h x (by simp [hx]))]

theorem takeWhile_eq_self_of_all {p : Char → Bool} :
    ∀ {l : List Char}, (∀ c ∈ l, p c = true) → l.takeWhile p = l
  | [], _ => rfl
  | c :: cs, h => by
    simp only [List.takeWhile_cons, h c (by simp), if_true]
    rw [takeWhile_eq_self_of_all (fun x hx => h x (by simp [hx]))]

theorem take4Digits_post {l y : List Char} (h : take4Digits l = some y) :
    y.length = 4 ∧ y.all isDigitChar = true := by
  rcases l with _ | ⟨a, _ | ⟨b, _ | ⟨c, _ | ⟨d, rest⟩⟩⟩⟩
  · simp [take4Digits] at h
  · simp [take4Digits] at h
  · simp [take4Digits] at h
  · simp [take4Digits] at h
  · have h' : (if (isDigitChar a && isDigitChar b && isDigitChar c && isDigitChar d) = true
        then some [a, b, c, d] else none) = some y := h
    by_cases hd : (isDigitChar a && isDigitChar b && isDigitChar c && isDigitChar d) = true
    · rw [if_pos hd] at h'
      injection h' with h'
      subst h'
      simp only [Bool.and_eq_true] at hd
      refine ⟨rfl, ?_⟩
      simp [List.all_cons, hd.1.1.1, hd.1.1.2, hd.1.2, hd.2]
    · rw [if_neg hd] at h'
      simp at h' 

theorem p1TryAlt_post {s alt cap y : List Char} (h : p1TryAlt s alt = some (cap, y)) :
    y.length = 4 ∧ y.all isDigitChar = true := by
  unfold p1TryAlt at h
  cases hst : stripAltCI alt s with
  | none => rw [hst] at h; simp at h
  | some pr =>
    rw [hst] at h
    cases hdw : pr.2.dropWhile isAsciiLetter with
    | nil =>
      simp only [hdw] at h
      simp at h
    | cons c cs =>
      simp only [hdw] at h
      by_cases hws : isWsChar c = true
      · rw [if_pos hws] at h
        cases ht : take4Digits (cs.dropWhile isWsChar) with
        | none => rw [ht] at h; simp at h
        | some yy =>
          rw [ht] at h
          injection h with h
          have := take4Digits_post ht
          cases h
          exact this
      · rw [if_neg hws] at h
        simp at h

theorem searchL_some {β : Type} {f : List Char → Option β} :
    ∀ {l : List Char} {r : β}, searchL f l = some r → ∃ l', f l' = some r
  | [], _, h => ⟨[], h⟩
  | c :: cs, r, h => by
    rw [searchL_cons] at h
    cases hf : f (c :: cs) with
    | some v => rw [hf] at h; exact ⟨c :: cs, by rw [hf]; exact h⟩
    | none => rw [hf] at h; exact searchL_some h

theorem p1_search_post {t : List Char} {mo y : List Char}
    (h : searchL p1MatchAt t = some (mo, y)) :
    y.length = 4 ∧ y.all isDigitChar = true := by
  induction t with
  | nil =>
    simp only [searchL] at h
    rw [show p1MatchAt [] = none from rfl] at h
    simp at h
  | cons c cs ih =>
    rw [searchL_cons] at h
    cases hm : p1MatchAt (c :: cs) with
    | none => rw [hm] at h; exact ih h
    | some r =>
      rw [hm] at h
      injection h with h
      subst h
      obtain ⟨alt, _, halt⟩ := firstSome_some hm
      exact p1TryAlt_post halt

theorem parseMonthAbbrev_le {l : List Char} {m : Nat}
    (h : parseMonthAbbrev l = some m) : 1 ≤ m ∧ m ≤ 12 := by
  unfold parseMonthAbbrev at h
  cases hf : monthTable.find? (fun p => p.1 = lowerL l) with
  | none => rw [hf] at h; simp at h
  | some pr =>
    rw [hf] at h
    have hmem := List.mem_of_find?_eq_some hf
    have : 1 ≤ pr.2 ∧ pr.2 ≤ 12 := by
      fin_cases hmem <;> decide
    have h2 : some pr.2 = some m := h
    injection h2 with h2
    omega

theorem p2MonthOpt_post (rest : List Char) :
    p2MonthOpt rest = none ∨
      ∃ m, p2MonthOpt rest = some m ∧ m.all isDigitChar = true ∧
        (m.length = 1 ∨ m.length = 2) := by
  rcases rest with _ | ⟨sep, _ | ⟨d1, _ | ⟨d2, rest3⟩⟩⟩
  · left; rfl
  · left; rfl
  · by_cases hc : ((decide (sep = '-') || decide (sep = '/')) && isDigitChar d1) = true
    · right
      refine ⟨[d1], ?_, ?_, Or.inl rfl⟩
      · show (if ((decide (sep = '-') || decide (sep = '/')) && isDigitChar d1) = true
            then some [d1] else none) = some [d1]
        rw [if_pos hc]
      · simp only [Bool.and_eq_true] at hc
        simp [hc.2]
    · left
      show (if ((decide (sep = '-') || decide (sep = '/')) && isDigitChar d1) = true
          then some [d1] else none) = none
      rw [if_neg hc]
  · by_cases hc : ((decide (sep = '-') || decide (sep = '/')) && isDigitChar d1) = true
    · by_cases hd2 : isDigitChar d2 = true
      · right
        refine ⟨[d1, d2], ?_, ?_, Or.inr rfl⟩
        · show (if ((decide (sep = '-') || decide (sep = '/')) && isDigitChar d1) = true
              then (if isDigitChar d2 = true then some [d1, d2] else some [d1])
              else none) = some [d1, d2]
          rw [if_pos hc, if_pos hd2]
        · simp only [Bool.and_eq_true] at hc
          simp [hc.2, hd2]
      · right
        refine ⟨[d1], ?_, ?_, Or.inl rfl⟩
        · show (if ((decide (sep = '-') || decide (sep = '/')) && isDigitChar d1) = true
              then (if isDigitChar d2 = true then some [d1, d2] else some [d1])
              else none) = some [d1]
          rw [if_pos hc, if_neg hd2]
        · simp only [Bool.and_eq_true] at hc
          simp [hc.2]
    · left
      show (if ((decide (sep = '-') || decide (sep = '/')) && isDigitChar d1) = true
          then (if isDigitChar d2 = true then some [d1, d2] else some [d1])
          else none) = none
      rw [if_neg hc]

theorem p2MatchAt_post {s y : List Char} {mo : Option (List Char)}
    (h : p2MatchAt s = some (y, mo)) :
    y.length = 4 ∧ y.all isDigitChar = true ∧
      (mo = none ∨ ∃ m, mo = some m ∧ m.all isDigitChar = true ∧
        (m.length = 1 ∨ m.length = 2)) := by
  rcases s with _ | ⟨a, _ | ⟨b, _ | ⟨c, _ | ⟨d, rest⟩⟩⟩⟩
  · simp [p2MatchAt] at h
  · simp [p2MatchAt] at h
  · simp [p2MatchAt] at h
  · simp [p2MatchAt] at h
  · have h' : (if (isDigitChar a && isDigitChar b && isDigitChar c && isDigitChar d) = true
        then some ([a, b, c, d], p2MonthOpt rest) else none) = some (y, mo) := h
    clear h
    by_cases hd : (isDigitChar a && isDigitChar b && isDigitChar c && isDigitChar d) = true
    · rw [if_pos hd] at h'
      injection h' with h'
      simp only [Bool.and_eq_true] at hd
      rw [Prod.mk.injEq] at h'
      obtain ⟨h1, h2⟩ := h'
      subst h1
      subst h2
      refine ⟨rfl, by simp [List.all_cons, hd.1.1.1, hd.1.1.2, hd.1.2, hd.2], ?_⟩
      rcases p2MonthOpt_post rest with hn | ⟨m, hm, hmd, hml⟩
      · exact Or.inl hn
      · exact Or.inr ⟨m, hm, hmd, hml⟩
    · rw [if_neg hd] at h'
      simp at h' 

theorem presentCheck_shape (t : List Char) :
    presentCheck t = none ∨ presentCheck t = some "present" := by
  unfold presentCheck
  split_ifs
  · right; rfl
  · left; rfl

theorem ndPattern2_shape (t : List Char) :
    ndPattern2 t = none ∨ ndPattern2 t = some "present" ∨
    (∃ y : List Char, y.length = 4 ∧ y.all isDigitChar = true ∧
      ndPattern2 t = some ⟨y⟩) ∨
    (∃ y mm : List Char, y.length = 4 ∧ y.all isDigitChar = true ∧
      mm.length = 2 ∧ mm.all isDigitChar = true ∧
      ndPattern2 t = some ⟨y ++ '-' :: mm⟩) := by
  cases hs : searchL p2MatchAt t with
  | none =>
    have hnd : ndPattern2 t = presentCheck t := by
      unfold ndPattern2
      rw [hs]
    rcases presentCheck_shape t with h | h
    · left; rw [hnd]; exact h
    · right; left; rw [hnd]; exact h
  | some r =>
    obtain ⟨y, mo⟩ := r
    obtain ⟨l', hmat⟩ := searchL_some hs
    obtain ⟨hy4, hyd, hmo⟩ := p2MatchAt_post hmat
    rcases hmo with rfl | ⟨m, rfl, hmd, hml⟩
    · have hnd : ndPattern2 t = some ⟨y⟩ := by
        unfold ndPattern2
        rw [hs]
      exact Or.inr (Or.inr (Or.inl ⟨y, hy4, hyd, hnd⟩))
    · by_cases hm2 : m.length = 2
      · have hnd : ndPattern2 t = some ⟨y ++ '-' :: fmt2 (digitsToNat m)⟩ := by
          unfold ndPattern2
          rw [hs]
          show (if m.length = 2 then some (⟨y ++ '-' :: fmt2 (digitsToNat m)⟩ : String)
              else presentCheck t) = some ⟨y ++ '-' :: fmt2 (digitsToNat m)⟩
          rw [if_pos hm2]
        obtain ⟨m1, m2, hm12⟩ :
            ∃ m1 m2 : Char, m = [m1, m2] := by
          rcases m with _ | ⟨m1, _ | ⟨m2, _ | ⟨m3, mr⟩⟩⟩
          · simp at hm2
          · simp at hm2
          · exact ⟨m1, m2, rfl⟩
          · simp at hm2
        subst hm12
        simp only [List.all_cons, List.all_nil, Bool.and_true, Bool.and_eq_true] at hmd
        obtain ⟨hf2, hfd⟩ := fmt2_digits (digitsToNat_two_le hmd.1 hmd.2)
        exact Or.inr (Or.inr (Or.inr
          ⟨y, fmt2 (digitsToNat [m1, m2]), hy4, hyd, hf2, hfd, hnd⟩))
      · have hnd : ndPattern2 t = presentCheck t := by
          unfold ndPattern2
          rw [hs]
          show (if m.length = 2 then some (⟨y ++ '-' :: fmt2 (digitsToNat m)⟩ : String)
              else presentCheck t) = presentCheck t
          rw [if_neg hm2]
        rcases presentCheck_shape t with h | h
        · left; rw [hnd]; exact h
        · right; left; rw [hnd]; exact h

theorem mem4 {x a b c d : Char} (hx : x ∈ ([a, b, c, d] : List Char)) :
    x = a ∨ x = b ∨ x = c ∨ x = d := by
  simp only [List.mem_cons, List.not_mem_nil, or_false] at hx
  exact hx

theorem mem2 {x a b : Char} (hx : x ∈ ([a, b] : List Char)) :
    x = a ∨ x = b := by
  simp only [List.mem_cons, List.not_mem_nil, or_false] at hx
  exact hx

theorem normalize_date_eq (s : String) :
    normalize_date s =
      match searchL p1MatchAt (pyStrip s).data with
      | some (month, year) =>
        (match parseMonthAbbrev (month.take 3) with
         | some m => some ⟨year ++ '-' :: fmt2 m⟩
         | none => ndPattern2 (pyStrip s).data)
      | none => ndPattern2 (pyStrip s).data := rfl

theorem digit_or_dash_not_ws {c : Char}
    (h : isDigitChar c = true ∨ c = '-') : isWsChar c = false := by
  rcases h with h | h
  · exact not_ws_of_digit h
  · exact not_ws_of_dash h

/-- normalize_date echoes a bare four-digit-year string. -/
theorem normalize_date_year {y : List Char} (h4 : y.length = 4)
    (hd : y.all isDigitChar = true) : normalize_date ⟨y⟩ = some ⟨y⟩ := by
  obtain ⟨a, b, c, d, hy⟩ := list_len4 h4
  subst hy
  simp only [List.all_cons, List.all_nil, Bool.and_true, Bool.and_eq_true] at hd
  obtain ⟨ha, hb, hc, hdd⟩ := hd
  have hstrip : pyStrip ⟨[a, b, c, d]⟩ = ⟨[a, b, c, d]⟩ := by
    apply pyStrip_eq_self
    intro x hx
    apply not_ws_of_digit
    rcases mem4 hx with rfl | rfl | rfl | rfl
    · exact ha
    · exact hb
    · exact hc
    · exact hdd
  rw [normalize_date_eq, hstrip]
  have hp1 : searchL p1MatchAt (String.data ⟨[a, b, c, d]⟩) = none := by
    apply p1_search_none
    intro x hx
    rcases mem4 hx with rfl | rfl | rfl | rfl
    · exact Or.inl ha
    · exact Or.inl hb
    · exact Or.inl hc
    · exact Or.inl hdd
  rw [hp1]
  have hmatch : p2MatchAt [a, b, c, d] = some ([a, b, c, d], none) := by
    have h' : p2MatchAt [a, b, c, d] =
        (if (isDigitChar a && isDigitChar b && isDigitChar c && isDigitChar d) = true
         then some ([a, b, c, d], p2MonthOpt []) else none) := rfl
    rw [h', if_pos (by simp [ha, hb, hc, hdd])]
    rfl
  show ndPattern2 [a, b, c, d] = some ⟨[a, b, c, d]⟩
  unfold ndPattern2
  rw [searchL_cons, hmatch]

/-- normalize_date returns none on a two-digit-only string. -/
theorem normalize_date_two_digits {m1 m2 : Char} (h1 : isDigitChar m1 = true)
    (h2 : isDigitChar m2 = true) : normalize_date ⟨[m1, m2]⟩ = none := by
  have hstrip : pyStrip ⟨[m1, m2]⟩ = ⟨[m1, m2]⟩ := by
    apply pyStrip_eq_self
    intro x hx
    apply not_ws_of_digit
    rcases mem2 hx with rfl | rfl
    · exact h1
    · exact h2
  have hp1 : searchL p1MatchAt [m1, m2] = none := by
    apply p1_search_none
    intro x hx
    rcases mem2 hx with rfl | rfl
    · exact Or.inl h1
    · exact Or.inl h2
  rw [normalize_date_eq, hstrip]
  show (match searchL p1MatchAt [m1, m2] with
        | some (month, year) =>
          (match parseMonthAbbrev (month.take 3) with
           | some m => some (⟨year ++ '-' :: fmt2 m⟩ : String)
           | none => ndPattern2 [m1, m2])
        | none => ndPattern2 [m1, m2]) = none
  rw [hp1]
  have hp2 : searchL p2MatchAt [m1, m2] = none := rfl
  unfold ndPattern2
  rw [hp2]
  unfold presentCheck
  rw [if_neg]
  simp only [Bool.or_eq_true, not_or, Bool.not_eq_true]
  constructor
  · apply containsSub_false_of_short
    simp [lowerL]
  · apply containsSub_false_of_short
    simp [lowerL]

/-- Facts about the twelve two-digit month strings: all digits, length two,
and Python's "%02d" of their value reproduces them. -/
theorem month_ok {m : List Char}
    (h : m ∈ (["01", "02", "03", "04", "05", "06", "07", "08", "09", "10",
               "11", "12"] : List String).map String.data) :
    m.all isDigitChar = true ∧ (∃ m1 m2, m = [m1, m2]) ∧
      fmt2 (digitsToNat m) = m ∧ month2Valid m = true := by
  fin_cases h <;> exact ⟨by decide, ⟨_, _, rfl⟩, by decide, by decide⟩

/-- C4: For every valid date string s of the form YYYY (four digits) or
YYYY-MM (four-digit year, hyphen, two-digit month 01-12),
normalize_date(s) = s: normalization is the identity on already-normalized
dates. -/
theorem C4_normalize_date_identity (s : String)
    (h : (s.data.length = 4 ∧ s.data.all isDigitChar = true) ∨
         (∃ y m : List Char, s.data = y ++ '-' :: m ∧ y.length = 4 ∧
           y.all isDigitChar = true ∧
           m ∈ (["01", "02", "03", "04", "05", "06", "07", "08", "09", "10",
                 "11", "12"] : List String).map String.data)) :
    normalize_date s = some s := by
  rcases h with ⟨h4, hd⟩ | ⟨y, m, hs, hy4, hyd, hm⟩
  · have : (⟨s.data⟩ : String) = s := rfl
    rw [← this]
    exact normalize_date_year h4 hd
  · obtain ⟨hmd, ⟨m1, m2, hm12⟩, hfmt, _⟩ := month_ok hm
    subst hm12
    obtain ⟨a, b, c, d, hy⟩ := list_len4 hy4
    subst hy
    simp only [List.all_cons, List.all_nil, Bool.and_true, Bool.and_eq_true] at hyd hmd
    obtain ⟨ha, hb, hc, hdd⟩ := hyd
    obtain ⟨hm1, hm2⟩ := hmd
    have hchars : ∀ x ∈ s.data, isDigitChar x = true ∨ x = '-' := by
      intro x hx
      rw [hs] at hx
      simp only [List.mem_append, List.mem_cons, List.not_mem_nil, or_false] at hx
      rcases hx with (rfl | rfl | rfl | rfl) | rfl | rfl | rfl
      · exact Or.inl ha
      · exact Or.inl hb
      · exact Or.inl hc
      · exact Or.inl hdd
      · exact Or.inr rfl
      · exact Or.inl hm1
      · exact Or.inl hm2
    have hstrip : pyStrip s = s := by
      apply pyStrip_eq_self
      intro x hx
      exact digit_or_dash_not_ws (hchars x hx)
    rw [normalize_date_eq, hstrip, p1_search_none hchars]
    have hmo : p2MonthOpt ('-' :: [m1, m2]) = some [m1, m2] := by
      have h' : p2MonthOpt ('-' :: [m1, m2]) =
          (if ((decide (('-' : Char) = '-') || decide (('-' : Char) = '/')) &&
              isDigitChar m1) = true
           then (if isDigitChar m2 = true then some [m1, m2] else some [m1])
           else none) := rfl
      rw [h', if_pos (by simp [hm1]), if_pos hm2]
    have hmatch : p2MatchAt s.data = some ([a, b, c, d], some [m1, m2]) := by
      rw [hs]
      have h' : p2MatchAt ([a, b, c, d] ++ '-' :: [m1, m2]) =
          (if (isDigitChar a && isDigitChar b && isDigitChar c && isDigitChar d) = true
           then some ([a, b, c, d], p2MonthOpt ('-' :: [m1, m2])) else none) := rfl
      rw [h', if_pos (by simp [ha, hb, hc, hdd]), hmo]
    unfold ndPattern2
    rcases hsd : s.data with _ | ⟨c0, cs⟩
    · rw [hsd] at hs
      simp at hs
    · rw [← hsd]
      rw [hsd, searchL_cons, ← hsd, hmatch]
      show (if ([m1, m2] : List Char).length = 2
          then some (⟨[a, b, c, d] ++ '-' :: fmt2 (digitsToNat [m1, m2])⟩ : String)
          else presentCheck s.data) = some s
      rw [if_pos (show ([m1, m2] : List Char).length = 2 from rfl), hfmt, ← hs]

/-- C4 witness. -/
theorem C4_witness : normalize_date "2019-05" = some "2019-05" :=
  C4_normalize_date_identity "2019-05"
    (Or.inr ⟨"2019".data, "05".data, by decide, by decide, by decide, by decide⟩)

/-- C2 counterexample: the claim says normalize_date only returns values the
assembler's date validation accepts, but on "2020-13" the numeric month is
copied through unvalidated and `_validate_date` rejects it. -/
theorem C2_counterexample :
    normalize_date "2020-13" = some "2020-13" ∧
      validate_date "2020-13" = .error () := ⟨rfl, rfl⟩

/-- C2 (amended): For every input string, normalize_date returns none, the
sentinel "present", a bare four-digit year, or a string "YYYY-MM" whose month
part is two digits; the month is 01-12 when it came from a month-name match,
but a numeric YYYY-MM/YYYY-slash-MM input has its two month digits copied
unvalidated (00-99), so the result may be rejected by the assembler's date
validation. -/
theorem C2_amended_normalize_date_shape (s : String) :
    normalize_date s = none ∨ normalize_date s = some "present" ∨
    (∃ y : List Char, y.length = 4 ∧ y.all isDigitChar = true ∧
      normalize_date s = some ⟨y⟩) ∨
    (∃ y mm : List Char, y.length = 4 ∧ y.all isDigitChar = true ∧
      mm.length = 2 ∧ mm.all isDigitChar = true ∧
      normalize_date s = some ⟨y ++ '-' :: mm⟩) := by
  cases hp1 : searchL p1MatchAt (pyStrip s).data with
  | none =>
    have heq : normalize_date s = ndPattern2 (pyStrip s).data := by
      rw [normalize_date_eq, hp1]
    rw [heq]
    exact ndPattern2_shape _
  | some r =>
    obtain ⟨mo, yr⟩ := r
    cases hpm : parseMonthAbbrev (mo.take 3) with
    | none =>
      have heq : normalize_date s = ndPattern2 (pyStrip s).data := by
        rw [normalize_date_eq, hp1]
        show (match parseMonthAbbrev (mo.take 3) with
              | some m => some (⟨yr ++ '-' :: fmt2 m⟩ : String)
              | none => ndPattern2 (pyStrip s).data) = ndPattern2 (pyStrip s).data
        rw [hpm]
      rw [heq]
      exact ndPattern2_shape _
    | some m =>
      have heq : normalize_date s = some ⟨yr ++ '-' :: fmt2 m⟩ := by
        rw [normalize_date_eq, hp1]
        show (match parseMonthAbbrev (mo.take 3) with
              | some m => some (⟨yr ++ '-' :: fmt2 m⟩ : String)
              | none => ndPattern2 (pyStrip s).data) = some ⟨yr ++ '-' :: fmt2 m⟩
        rw [hpm]
      have hyr := p1_search_post hp1
      have hm12 := parseMonthAbbrev_le hpm
      obtain ⟨hf2, hfd⟩ := fmt2_digits (by omega : m ≤ 99)
      exact Or.inr (Or.inr (Or.inr ⟨yr, fmt2 m, hyr.1, hyr.2, hf2, hfd, heq⟩))

theorem digit_not_dashB {x : Char} (h : isDigitChar x = true) :
    (!rangeDash x) = true := by
  simp only [rangeDash, Bool.not_eq_true', Bool.or_eq_false_iff,
    decide_eq_false_iff_not]
  constructor
  · intro hq; subst hq; revert h; decide
  · intro hq; subst hq; revert h; decide

theorem digit_not_newline {x : Char} (h : isDigitChar x = true) :
    decide (x ≠ '\n') = true := by
  simp only [decide_eq_true_eq]
  intro hq
  subst hq
  revert h
  decide

theorem list_len2 {l : List Char} (h : l.length = 2) :
    ∃ a b : Char, l = [a, b] := by
  rcases l with _ | ⟨a, _ | ⟨b, _ | ⟨c, r⟩⟩⟩
  · simp at h
  · simp at h
  · exact ⟨a, b, rfl⟩
  · simp at h

/-- C10: For a single-date input of the form YYYY-MM, normalize_date_range
treats the internal hyphen as a range separator: the range splitter splits on
the first hyphen unconditionally, so the result is (YYYY, none) and the lone
YYYY-MM date is never returned intact as the start of the pair. -/
theorem C10_range_splits_iso_date (s : String) (y m : List Char)
    (hs : s.data = y ++ '-' :: m) (hy4 : y.length = 4)
    (hyd : y.all isDigitChar = true) (hm2 : m.length = 2)
    (hmd : m.all isDigitChar = true) :
    normalize_date_range s = (some ⟨y⟩, none) ∧ (⟨y⟩ : String) ≠ s := by
  obtain ⟨a, b, c, d, hy⟩ := list_len4 hy4
  subst hy
  obtain ⟨m1, m2', hm⟩ := list_len2 hm2
  subst hm
  simp only [List.all_cons, List.all_nil, Bool.and_true, Bool.and_eq_true] at hyd hmd
  obtain ⟨ha, hb, hc, hdd⟩ := hyd
  obtain ⟨hd1, hd2⟩ := hmd
  have hrun : s.data.takeWhile (fun ch => !rangeDash ch) = [a, b, c, d] := by
    rw [hs, takeWhile_append_all ?ally]
    case ally =>
      intro x hx
      rcases mem4 hx with rfl | rfl | rfl | rfl
      · exact digit_not_dashB ha
      · exact digit_not_dashB hb
      · exact digit_not_dashB hc
      · exact digit_not_dashB hdd
    simp [List.takeWhile_cons, rangeDash]
  have hdrop : s.data.drop ([a, b, c, d] : List Char).length = '-' :: [m1, m2'] := by
    rw [hs]
    exact List.drop_left _ _
  have hend : ([m1, m2'] : List Char).takeWhile (fun ch => ch ≠ '\n') = [m1, m2'] := by
    apply takeWhile_eq_self_of_all
    intro x hx
    rcases mem2 hx with rfl | rfl
    · exact digit_not_newline hd1
    · exact digit_not_newline hd2
  have hrm : rangeMatchAt s.data = some ([a, b, c, d], [m1, m2'], []) := by
    simp only [rangeMatchAt]
    rw [hrun, hdrop]
    show (if (([m1, m2'] : List Char).takeWhile (fun ch => ch ≠ '\n')).isEmpty = true
        then none
        else some (([a, b, c, d] : List Char),
          ([m1, m2'] : List Char).takeWhile (fun ch => ch ≠ '\n'),
          ([m1, m2'] : List Char).drop
            (([m1, m2'] : List Char).takeWhile (fun ch => ch ≠ '\n')).length)) =
      some ([a, b, c, d], [m1, m2'], [])
    rw [hend, if_neg (by simp)]
    rfl
  have hsearch : rangeSearch s.data = some ([], [a, b, c, d], [m1, m2'], []) := by
    unfold rangeSearch
    cases hsd : s.data with
    | nil => rw [hsd] at hs; simp at hs
    | cons c0 cs =>
      simp only [rangeSearchAux]
      rw [← hsd, hrm]
      rfl
  constructor
  · unfold normalize_date_range
    rw [hsearch]
    show (normalize_date ⟨[a, b, c, d]⟩, normalize_date ⟨[m1, m2']⟩) =
      (some ⟨[a, b, c, d]⟩, none)
    rw [normalize_date_year (show ([a, b, c, d] : List Char).length = 4 from rfl)
          (by simp [ha, hb, hc, hdd]),
        normalize_date_two_digits hd1 hd2]
  · intro he
    have hd' : ([a, b, c, d] : List Char) = [a, b, c, d] ++ '-' :: [m1, m2'] := by
      have h1 : (⟨[a, b, c, d]⟩ : String).data = s.data := congrArg String.data he
      rw [hs] at h1
      exact h1
    have := congrArg List.length hd'
    simp at this

/-- C10 witness. -/
theorem C10_witness :
    normalize_date_range "2019-05" = (some "2019", none) ∧
      ("2019" : String) ≠ "2019-05" :=
  C10_range_splits_iso_date "2019-05" "2019".data "05".data rfl (by decide)
    (by decide) (by decide) (by decide)

/-! ### Section detection (C1, C3) -/

theorem sectionAssign_cons (t : Token) (ts : List Token) (cur : String) :
    sectionAssign (t :: ts) cur =
      match sectionOf t with
      | some s => sectionAssign ts s
      | none => (cur, t) :: sectionAssign ts cur := rfl

theorem sectionAssign_cons_heading {t : Token} {s : String} (h : sectionOf t = some s)
    (ts : List Token) (cur : String) :
    sectionAssign (t :: ts) cur = sectionAssign ts s := by
  rw [sectionAssign_cons, h]

theorem sectionAssign_cons_plain {t : Token} (h : sectionOf t = none)
    (ts : List Token) (cur : String) :
    sectionAssign (t :: ts) cur = (cur, t) :: sectionAssign ts cur := by
  rw [sectionAssign_cons, h]

theorem finalSection_cons (t : Token) (ts : List Token) (cur : String) :
    finalSection (t :: ts) cur = finalSection ts ((sectionOf t).getD cur) := rfl

theorem sectionAssign_append (a b : List Token) :
    ∀ cur, sectionAssign (a ++ b) cur =
      sectionAssign a cur ++ sectionAssign b (finalSection a cur) := by
  induction a with
  | nil => intro cur; rfl
  | cons t ts ih =>
    intro cur
    rw [List.cons_append, sectionAssign_cons, sectionAssign_cons, finalSection_cons]
    cases h : sectionOf t with
    | some s =>
      show sectionAssign (ts ++ b) s =
        sectionAssign ts s ++ sectionAssign b (finalSection ts s)
      exact ih s
    | none =>
      show (cur, t) :: sectionAssign (ts ++ b) cur =
        (cur, t) :: (sectionAssign ts cur ++ sectionAssign b (finalSection ts cur))
      rw [ih cur]

/-- Every pair appended by the scan carries a non-heading token. -/
theorem sectionAssign_snd_none {p : String × Token} :
    ∀ {l : List Token} {cur : String}, p ∈ sectionAssign l cur → sectionOf p.2 = none
  | [], _, h => by simp [sectionAssign] at h
  | t :: ts, cur, h => by
    rw [sectionAssign_cons] at h
    cases hs : sectionOf t with
    | some s =>
      rw [hs] at h
      exact sectionAssign_snd_none h
    | none =>
      rw [hs] at h
      rcases List.mem_cons.mp h with rfl | h2
      · exact hs
      · exact sectionAssign_snd_none h2

theorem sectionOf_mem_labels {t : Token} {s : String} (h : sectionOf t = some s) :
    s ∈ sectionLabels := by
  simp only [sectionOf] at h
  cases hf : SECTION_KEYWORDS.find?
      (fun p => p.2.contains (pyStripSet [':'] (lowerStr t.text))) with
  | none => rw [hf] at h; simp at h
  | some pr =>
    rw [hf] at h
    have h2 : some pr.1 = some s := h
    injection h2 with h2
    subst h2
    have hmem := List.mem_of_find?_eq_some hf
    fin_cases hmem <;> decide

theorem sectionAssign_fst_mem {p : String × Token} :
    ∀ {l : List Token} {cur : String}, cur ∈ sectionLabels →
      p ∈ sectionAssign l cur → p.1 ∈ sectionLabels
  | [], _, _, h => by simp [sectionAssign] at h
  | t :: ts, cur, hcur, h => by
    rw [sectionAssign_cons] at h
    cases hs : sectionOf t with
    | some s =>
      rw [hs] at h
      exact sectionAssign_fst_mem (sectionOf_mem_labels hs) h
    | none =>
      rw [hs] at h
      rcases List.mem_cons.mp h with rfl | h2
      · exact hcur
      · exact sectionAssign_fst_mem hcur h2

theorem sectionAssign_snd_map :
    ∀ (l : List Token) (cur : String),
      (sectionAssign l cur).map Prod.snd = l.filter (fun t => (sectionOf t).isNone)
  | [], _ => rfl
  | t :: ts, cur => by
    rw [sectionAssign_cons, List.filter_cons]
    cases hs : sectionOf t with
    | some s =>
      rw [if_neg (by simp [hs])]
      exact sectionAssign_snd_map ts s
    | none =>
      rw [if_pos (by simp [hs]), List.map_cons, sectionAssign_snd_map ts cur]

/-- C3: A token whose text equals "Education" (case-insensitively, after
stripping colons) switches the current section, so detect_sections puts the
immediately following token (when not itself a section keyword) into the
education bucket and the heading token into no bucket at all. -/
theorem C3_education_heading (pre post : List Token) (h t : Token)
    (hh : pyStripSet [':'] (lowerStr h.text) = "education")
    (ht : sectionOf t = none) :
    t ∈ detect_sections (pre ++ h :: t :: post) "education" ∧
      ∀ k, h ∉ detect_sections (pre ++ h :: t :: post) k := by
  have hsh : sectionOf h = some "education" := by
    simp only [sectionOf]
    rw [hh]
    decide
  have key : sectionAssign (pre ++ h :: t :: post) "other_sections" =
      sectionAssign pre "other_sections" ++
        ("education", t) :: sectionAssign post "education" := by
    rw [sectionAssign_append]
    congr 1
    rw [sectionAssign_cons_heading hsh, sectionAssign_cons_plain ht]
  constructor
  · unfold detect_sections
    rw [key, List.filterMap_append]
    apply List.mem_append_right
    have hstep : List.filterMap
        (fun p => if p.1 = "education" then some p.2 else none)
        (("education", t) :: sectionAssign post "education") =
        t :: List.filterMap (fun p => if p.1 = "education" then some p.2 else none)
          (sectionAssign post "education") := by
      rw [List.filterMap_cons]
      simp
    rw [hstep]
    exact List.mem_cons_self _ _
  · intro k hmem
    unfold detect_sections at hmem
    obtain ⟨p, hp, hpe⟩ := List.mem_filterMap.mp hmem
    have hsnd : p.2 = h := by
      by_cases hk : p.1 = k
      · rw [if_pos hk] at hpe
        injection hpe
      · rw [if_neg hk] at hpe
        simp at hpe
    have hnone := sectionAssign_snd_none hp
    rw [hsnd, hsh] at hnone
    simp at hnone

/-- C3 witness. -/
theorem C3_witness :
    tokMIT ∈ detect_sections [tokEducation, tokMIT] "education" ∧
      ∀ k, tokEducation ∉ detect_sections [tokEducation, tokMIT] k :=
  C3_education_heading [] [] tokEducation tokMIT (by decide) (by decide)

/-- One token prepended to exactly the bucket of its key, all buckets
concatenated: a permutation emerges. -/
theorem flatten_single_insert {L : List String} (k0 : String) (t0 : Token)
    (f0 : String → List Token) (hnd : L.Nodup) (hk : k0 ∈ L) :
    List.Perm (L.map (fun k => if k = k0 then t0 :: f0 k else f0 k)).flatten
      (t0 :: (L.map f0).flatten) := by
  induction L with
  | nil => simp at hk
  | cons hd tl ih =>
    simp only [List.map_cons, List.flatten_cons]
    by_cases he : hd = k0
    · subst he
      rw [if_pos rfl]
      have hnotin : hd ∉ tl := (List.nodup_cons.mp hnd).1
      have hmap : tl.map (fun k => if k = hd then t0 :: f0 k else f0 k) = tl.map f0 :=
        List.map_congr_left (fun x hx => by
          rw [if_neg (show ¬x = hd by intro hxx; subst hxx; exact hnotin hx)])
      rw [hmap]
      simp
    · rw [if_neg he]
      have hk' : k0 ∈ tl := by
        rcases List.mem_cons.mp hk with rfl | hh
        · exact absurd rfl he
        · exact hh
      have step := (ih (List.nodup_cons.mp hnd).2 hk').append_left (f0 hd)
      refine step.trans ?_
      exact List.perm_middle

/-- Concatenating the per-label filterMaps of a pair list whose keys all lie
in a duplicate-free label list permutes its value list. -/
theorem buckets_perm {L : List String} (hnd : L.Nodup) :
    ∀ {l : List (String × Token)}, (∀ p ∈ l, p.1 ∈ L) →
      List.Perm
        (L.map (fun k => l.filterMap (fun p => if p.1 = k then some p.2 else none))).flatten
        (l.map Prod.snd)
  | [], _ => by simp
  | p0 :: rest, hcl => by
    have hp0 : p0.1 ∈ L := hcl p0 (by simp)
    have hrest : ∀ p ∈ rest, p.1 ∈ L := fun p hp => hcl p (by simp [hp])
    have hmap : L.map (fun k =>
        (p0 :: rest).filterMap (fun p => if p.1 = k then some p.2 else none)) =
        L.map (fun k => if k = p0.1
          then p0.2 :: rest.filterMap (fun p => if p.1 = k then some p.2 else none)
          else rest.filterMap (fun p => if p.1 = k then some p.2 else none)) := by
      apply List.map_congr_left
      intro k _
      rw [List.filterMap_cons]
      by_cases he : p0.1 = k
      · rw [if_pos he, if_pos he.symm]
      · rw [if_neg he, if_neg (fun hx => he hx.symm)]
    rw [hmap, List.map_cons]
    exact (flatten_single_insert p0.1 p0.2 _ hnd hp0).trans
      ((buckets_perm hnd hrest).cons p0.2)

/-- C1 counterexample: with one page whose single token is not a keyword, the
contact fallback copies that token into the contact bucket while it also sits
in other_sections, so it lies in two distinct buckets, not exactly one. -/
theorem C1_counterexample :
    tokHello ∈ sections_with_fallback docOnePage "contact" ∧
      tokHello ∈ sections_with_fallback docOnePage "other_sections" ∧
      "contact" ≠ "other_sections" := by decide

/-- C1 (amended): in the detect_sections mapping itself every non-heading
token appears in exactly one bucket and heading (keyword) tokens appear in
none — concatenating all buckets permutes the non-heading tokens of the
document; the contact fallback in link_entities may afterwards duplicate the
first 50 first-page tokens into the contact bucket. -/
theorem C1_amended_buckets_partition (ts : List Token) :
    List.Perm (sectionLabels.map (detect_sections ts)).flatten
      (ts.filter (fun t => (sectionOf t).isNone)) := by
  unfold detect_sections
  have h1 := buckets_perm (L := sectionLabels) (by decide)
    (l := sectionAssign ts "other_sections")
    (fun p hp => sectionAssign_fst_mem (by decide) hp)
  rw [sectionAssign_snd_map ts "other_sections"] at h1
  exact h1

/-! ### Line grouping (C6) -/

theorem alGet_insertLine (m : List (Int × List Token)) (k : Int) (t : Token)
    (k' : Int) :
    alGet (insertLine m k t) k' =
      if k' = k then alGet m k' ++ [t] else alGet m k' := by
  induction m with
  | nil =>
    by_cases h : k' = k
    · subst h
      simp [insertLine, alGet, List.find?]
    · rw [if_neg h]
      simp only [insertLine, alGet, List.find?]
      rw [decide_eq_false (by omega)]
  | cons p rest ih =>
    obtain ⟨pk, pv⟩ := p
    simp only [insertLine]
    by_cases hpk : pk = k
    · rw [if_pos hpk]
      subst hpk
      by_cases hk' : k' = pk
      · subst hk'
        simp [alGet, List.find?]
      · rw [if_neg hk']
        simp only [alGet, List.find?]
        rw [decide_eq_false (by omega)]
    · rw [if_neg hpk]
      by_cases hk' : k' = pk
      · subst hk'
        rw [if_neg hpk]
        simp [alGet, List.find?]
      · have hfind : ∀ (v : List Token),
            alGet ((pk, v) :: insertLine rest k t) k' = alGet (insertLine rest k t) k' := by
          intro v
          simp only [alGet, List.find?]
          rw [decide_eq_false (by omega)]
        rw [hfind, ih]
        have : alGet ((pk, pv) :: rest) k' = alGet rest k' := by
          simp only [alGet, List.find?]
          rw [decide_eq_false (by omega)]
        rw [this]

theorem insertLine_keys (m : List (Int × List Token)) (k : Int) (t : Token) :
    (insertLine m k t).map Prod.fst =
      if k ∈ m.map Prod.fst then m.map Prod.fst else m.map Prod.fst ++ [k] := by
  induction m with
  | nil => simp [insertLine]
  | cons p rest ih =>
    obtain ⟨pk, pv⟩ := p
    simp only [insertLine]
    by_cases h : pk = k
    · subst h
      rw [if_pos rfl]
      simp
    · rw [if_neg h, List.map_cons, List.map_cons, ih]
      by_cases h2 : k ∈ rest.map Prod.fst
      · rw [if_pos h2, if_pos (by simp [h2])]
      · rw [if_neg h2, if_neg ?notmem]
        case notmem =>
          simp only [List.mem_cons]
          rintro (he | hm)
          · exact h he.symm
          · exact h2 hm
        simp

theorem insertLine_nodup {m : List (Int × List Token)} {k : Int} {t : Token}
    (h : (m.map Prod.fst).Nodup) : ((insertLine m k t).map Prod.fst).Nodup := by
  rw [insertLine_keys]
  by_cases h2 : k ∈ m.map Prod.fst
  · rw [if_pos h2]; exact h
  · rw [if_neg h2]
    exact h.append (List.nodup_singleton k) (by simp [List.disjoint_singleton, h2])

theorem groupAux_invariant :
    ∀ (ts : List Token) (m : List (Int × List Token)) (done : List Token),
      (m.map Prod.fst).Nodup →
      (∀ k, alGet m k = done.filter (fun x => lineIndex x = k)) →
      ((ts.foldl (fun acc x => insertLine acc (lineIndex x) x) m).map Prod.fst).Nodup ∧
      (∀ k, alGet (ts.foldl (fun acc x => insertLine acc (lineIndex x) x) m) k =
        (done ++ ts).filter (fun x => lineIndex x = k))
  | [], m, done, h1, h2 => by
    constructor
    · simpa using h1
    · intro k
      simpa using h2 k
  | t :: ts, m, done, h1, h2 => by
    simp only [List.foldl_cons]
    have h1' := insertLine_nodup (k := lineIndex t) (t := t) h1
    have h2' : ∀ k, alGet (insertLine m (lineIndex t) t) k =
        (done ++ [t]).filter (fun x => lineIndex x = k) := by
      intro k
      rw [alGet_insertLine, List.filter_append, h2 k]
      by_cases hk : k = lineIndex t
      · rw [if_pos hk]
        congr 1
        simp only [List.filter]
        rw [decide_eq_true hk.symm]
      · rw [if_neg hk]
        have hf : List.filter (fun x => lineIndex x = k) [t] = [] := by
          simp only [List.filter]
          rw [decide_eq_false (by omega)]
        rw [hf, List.append_nil]
    have hrec := groupAux_invariant ts _ (done ++ [t]) h1' h2'
    refine ⟨hrec.1, fun k => ?_⟩
    rw [hrec.2 k]
    simp

theorem alGet_of_mem_nodup {m : List (Int × List Token)} {q : Int × List Token}
    (hnd : (m.map Prod.fst).Nodup) (hq : q ∈ m) : alGet m q.1 = q.2 := by
  induction m with
  | nil => simp at hq
  | cons p rest ih =>
    rcases List.mem_cons.mp hq with rfl | h2
    · simp [alGet, List.find?]
    · have hnd2 : (Prod.fst p :: rest.map Prod.fst).Nodup := by
        rw [List.map_cons] at hnd
        exact hnd
      have hne : p.1 ≠ q.1 := by
        intro he
        have hmem : q.1 ∈ rest.map Prod.fst := List.mem_map_of_mem Prod.fst h2
        rw [← he] at hmem
        exact (List.nodup_cons.mp hnd2).1 hmem
      simp only [alGet, List.find?]
      rw [decide_eq_false hne]
      exact ih (List.nodup_cons.mp hnd2).2 h2

theorem mem_insertSorted {q p : Int × List Token} :
    ∀ {l : List (Int × List Token)}, q ∈ insertSorted p l ↔ q = p ∨ q ∈ l
  | [] => by simp [insertSorted]
  | x :: xs => by
    simp only [insertSorted]
    by_cases h : p.1 ≤ x.1
    · rw [if_pos h]
      simp [List.mem_cons]
    · rw [if_neg h]
      simp only [List.mem_cons, mem_insertSorted (l := xs)]
      tauto

theorem mem_sortByKey {q : Int × List Token} :
    ∀ {l : List (Int × List Token)}, q ∈ sortByKey l ↔ q ∈ l
  | [] => by simp [sortByKey]
  | x :: xs => by
    have : sortByKey (x :: xs) = insertSorted x (sortByKey xs) := rfl
    rw [this, mem_insertSorted]
    simp only [List.mem_cons, mem_sortByKey (l := xs)]

/-- C6 counterexample: two tokens on one line arrive in descending x0 order
and group_tokens_by_line keeps them that way — it performs no within-line
sort. -/
theorem C6_counterexample :
    group_tokens_by_line [tokRight, tokLeft] = [(0, [tokRight, tokLeft])] ∧
      ascendingByX0 [tokRight, tokLeft] = false := by decide

/-- C6 (amended): within each line of group_tokens_by_line's output the
tokens appear in input (insertion) order — each line's list is exactly the
subsequence of the input with that line index; no x0 or (column, y0, x0)
sorting happens inside lines. -/
theorem C6_amended_insertion_order (ts : List Token) (p : Int × List Token)
    (hp : p ∈ group_tokens_by_line ts) :
    p.2 = ts.filter (fun t => lineIndex t = p.1) := by
  unfold group_tokens_by_line at hp
  rw [mem_sortByKey] at hp
  obtain ⟨hnd, hget⟩ := groupAux_invariant ts [] [] (by simp) (fun k => rfl)
  have hq := alGet_of_mem_nodup hnd hp
  rw [hget p.1] at hq
  simpa using hq.symm

/-- C6 witness. -/
theorem C6_witness :
    ((0 : Int), [tokRight, tokLeft]).2 =
      [tokRight, tokLeft].filter (fun t => lineIndex t = ((0 : Int), [tokRight, tokLeft]).1) :=
  C6_amended_insertion_order [tokRight, tokLeft] (0, [tokRight, tokLeft]) (by decide)

/-! ### Skills (C8) -/

/-- The seen-set fold of extract_skills computes first-seen case-insensitive
de-duplication of the kept candidates. -/
theorem skills_fold_dedup :
    ∀ (cands : List (List Char)) (acc : List Skill) (seen : List String),
      (cands.foldl
        (fun (st : List Skill × List String) cand =>
          let skill := pyStrip (clean_bullet ⟨cand⟩)
          if skill = "" || 60 < skill.length then st
          else
            let key := lowerStr skill
            if st.2.contains key then st
            else (st.1 ++ [{ name := some skill }], st.2 ++ [key]))
        (acc, seen)).1 =
      acc ++ (dedupByLower
        ((cands.map (fun c => pyStrip (clean_bullet ⟨c⟩))).filter
          (fun s => decide (s ≠ "") && decide (s.length ≤ 60))) seen).map
        (fun s => ({ name := some s } : Skill))
  | [], acc, seen => by simp [dedupByLower]
  | cand :: rest, acc, seen => by
    simp only [List.foldl_cons, List.map_cons, List.filter_cons]
    by_cases h1 : (decide (pyStrip (clean_bullet ⟨cand⟩) = "") ||
        decide (60 < (pyStrip (clean_bullet ⟨cand⟩)).length)) = true
    · rw [if_pos h1]
      have hf : (decide (pyStrip (clean_bullet ⟨cand⟩) ≠ "") &&
          decide ((pyStrip (clean_bullet ⟨cand⟩)).length ≤ 60)) = false := by
        simp only [Bool.or_eq_true, decide_eq_true_eq] at h1
        rcases h1 with h | h
        · simp [h]
        · simp
          intro _
          omega
      rw [hf]
      exact skills_fold_dedup rest acc seen
    · rw [if_neg h1]
      have ht : (decide (pyStrip (clean_bullet ⟨cand⟩) ≠ "") &&
          decide ((pyStrip (clean_bullet ⟨cand⟩)).length ≤ 60)) = true := by
        simp only [Bool.or_eq_true, decide_eq_true_eq, not_or] at h1
        push_neg at h1
        simp only [Bool.and_eq_true, decide_eq_true_eq]
        exact ⟨h1.1, by omega⟩
      rw [ht, if_pos rfl]
      by_cases h2 : seen.contains (lowerStr (pyStrip (clean_bullet ⟨cand⟩))) = true
      · rw [if_pos h2]
        unfold dedupByLower
        rw [if_pos h2]
        exact skills_fold_dedup rest acc seen
      · rw [if_neg h2]
        unfold dedupByLower
        rw [if_neg h2]
        rw [skills_fold_dedup rest _ _]
        simp [List.append_assoc]

/-- C8: extract_skills splits the joined text on
commas/semicolons/slashes/newlines/bullets, bullet-strips candidates,
discards empty or over-60-character ones, and de-duplicates
case-insensitively keeping the first-seen casing in first-seen order — it
equals the spec-worded pipeline; in particular the candidates "Python",
"python", "PYTHON" collapse to the single entry "Python". -/
theorem C8_extract_skills :
    (∀ tokens, extract_skills tokens = extract_skills_spec tokens) ∧
      extract_skills
        [{ text := "Python, python, PYTHON", bbox := ⟨0, 0, 100, 10⟩, page := 0 }] =
        [{ name := some "Python" }] := by
  constructor
  · intro tokens
    unfold extract_skills extract_skills_spec
    by_cases h : joinTokens tokens = ""
    · rw [if_pos h, if_pos h]
    · rw [if_neg h, if_neg h]
      have := skills_fold_dedup
        (splitOnChars [',', ';', '/', '\n', '•'] (joinTokens tokens).data) [] []
      simpa using this
  · decide

/-! ### Duration monotonicity (C9) -/

theorem valid_head_digit {s : String} (h : ValidDate s) :
    ∃ c cs, s.data = c :: cs ∧ isDigitChar c = true := by
  rcases h with ⟨h4, hd, _⟩ | ⟨y, m, hs, hy4, hyd, _, _⟩
  · obtain ⟨a, b, c, d, hy⟩ := list_len4 h4
    refine ⟨a, [b, c, d], hy, ?_⟩
    rw [hy] at hd
    simp only [List.all_cons, Bool.and_eq_true] at hd
    exact hd.1
  · obtain ⟨a, b, c, d, hy⟩ := list_len4 hy4
    subst hy
    refine ⟨a, [b, c, d] ++ '-' :: m, by simpa using hs, ?_⟩
    simp only [List.all_cons, Bool.and_eq_true] at hyd
    exact hyd.1

theorem valid_ne_present_empty {s : String} (h : ValidDate s) :
    s ≠ "present" ∧ s ≠ "" := by
  obtain ⟨c, cs, hd, hc⟩ := valid_head_digit h
  constructor
  · intro he
    subst he
    have h2 : ('p' :: ['r', 'e', 's', 'e', 'n', 't']) = c :: cs := hd
    injection h2 with h1 _
    subst h1
    revert hc
    decide
  · intro he
    subst he
    simp at hd

theorem string_length_data (s : String) : s.length = s.data.length := rfl

theorem parseYM_cons (a b c d : Char) (m : List Char) :
    parseYM ⟨a :: b :: c :: d :: '-' :: m⟩ =
      (if (isDigitChar a && isDigitChar b && isDigitChar c && isDigitChar d &&
          month2Valid m) = true
       then (if digitsToNat [a, b, c, d] = 0 then none
             else some (digitsToNat [a, b, c, d], digitsToNat m))
       else none) := rfl

theorem valid_parseYM {s : String} (h : ValidDate s) :
    ∃ ym, parseYM (if s.length = 4 then s ++ "-01" else s) = some ym := by
  rcases h with ⟨h4, hd, hz⟩ | ⟨y, m, hs, hy4, hyd, hz, hm⟩
  · obtain ⟨a, b, c, d, hy⟩ := list_len4 h4
    have hlen : s.length = 4 := by rw [string_length_data]; exact h4
    rw [hy] at hd hz
    simp only [List.all_cons, List.all_nil, Bool.and_true, Bool.and_eq_true] at hd
    refine ⟨(digitsToNat [a, b, c, d], 1), ?_⟩
    have hdata : (s ++ "-01").data = [a, b, c, d, '-', '0', '1'] := by
      have h0 : (s ++ "-01").data = s.data ++ "-01".data := rfl
      rw [h0, hy]
      rfl
    have hseq : s ++ "-01" = (⟨[a, b, c, d, '-', '0', '1']⟩ : String) := by
      have h0 : s ++ "-01" = (⟨(s ++ "-01").data⟩ : String) := rfl
      rw [h0, hdata]
    rw [if_pos hlen, hseq, parseYM_cons]
    rw [if_pos (by simp only [hd.1, hd.2.1, hd.2.2.1, hd.2.2.2, Bool.true_and]; decide)]
    rw [if_neg hz]
    rfl
  · obtain ⟨a, b, c, d, hy⟩ := list_len4 hy4
    subst hy
    obtain ⟨hmd, ⟨m1, m2, hm12⟩, _, hm2v⟩ := month_ok hm
    subst hm12
    have hlen : s.length ≠ 4 := by
      rw [string_length_data, hs]
      simp
    simp only [List.all_cons, List.all_nil, Bool.and_true, Bool.and_eq_true] at hyd
    refine ⟨(digitsToNat [a, b, c, d], digitsToNat [m1, m2]), ?_⟩
    have hseq : s = (⟨[a, b, c, d, '-', m1, m2]⟩ : String) := by
      have h0 : s = (⟨s.data⟩ : String) := rfl
      rw [h0, hs]
      rfl
    rw [if_neg hlen, hseq, parseYM_cons]
    rw [if_pos (by simp only [hyd.1, hyd.2.1, hyd.2.2.1, hyd.2.2.2, hm2v,
      Bool.true_and, Bool.and_true])]
    rw [if_neg hz]

theorem compute_duration_some_some (now : Nat × Nat) (s e : String) :
    compute_duration now (some s) (some e) =
      if s = "" then .ok none
      else if s = "present" then .ok none
      else
        match (if e = "present" then Except.ok now
               else match parseYM (if e.length = 4 then e ++ "-01" else e) with
                    | some d => Except.ok d
                    | none => Except.error ()) with
        | .error _ => .error ()
        | .ok ed =>
          match parseYM (if s.length = 4 then s ++ "-01" else s) with
          | none => .error ()
          | some sd =>
            .ok (some (max (((ed.1 : Int) - (sd.1 : Int)) * 12 +
              ((ed.2 : Int) - (sd.2 : Int))) 0)) := rfl

/-- C9: For a fixed valid start date and valid end dates e1 chronologically no
later than e2, compute_duration(start, e1) ≤ compute_duration(start, e2): the
month count (clamped at 0) is monotone in the end date. -/
theorem C9_compute_duration_mono (now : Nat × Nat) (s e1 e2 : String)
    (hs : ValidDate s) (h1 : ValidDate e1) (h2 : ValidDate e2)
    (h12 : dateVal e1 ≤ dateVal e2) :
    ∃ d1 d2 : Int,
      compute_duration now (some s) (some e1) = .ok (some d1) ∧
      compute_duration now (some s) (some e2) = .ok (some d2) ∧ d1 ≤ d2 := by
  obtain ⟨hs_np, hs_ne⟩ := valid_ne_present_empty hs
  obtain ⟨yms, hyms⟩ := valid_parseYM hs
  have key : ∀ e, ValidDate e →
      compute_duration now (some s) (some e) =
        .ok (some (max ((dateVal e : Int) - (dateVal s : Int)) 0)) := by
    intro e he
    obtain ⟨he_np, _⟩ := valid_ne_present_empty he
    obtain ⟨yme, hyme⟩ := valid_parseYM he
    rw [compute_duration_some_some, if_neg hs_ne, if_neg hs_np, if_neg he_np, hyme]
    show (match parseYM (if s.length = 4 then s ++ "-01" else s) with
          | none => Except.error ()
          | some sd => Except.ok (some (max
              (((yme.1 : Int) - (sd.1 : Int)) * 12 + ((yme.2 : Int) - (sd.2 : Int))) 0))) =
        Except.ok (some (max ((dateVal e : Int) - (dateVal s : Int)) 0))
    rw [hyms]
    have hde : dateVal e = yme.1 * 12 + yme.2 := by
      unfold dateVal
      rw [hyme]
    have hds : dateVal s = yms.1 * 12 + yms.2 := by
      unfold dateVal
      rw [hyms]
    have harith : ((yme.1 : Int) - (yms.1 : Int)) * 12 + ((yme.2 : Int) - (yms.2 : Int)) =
        ((dateVal e : Int) - (dateVal s : Int)) := by
      rw [hde, hds]
      push_cast
      ring
    show Except.ok (some (max (((yme.1 : Int) - (yms.1 : Int)) * 12 +
        ((yme.2 : Int) - (yms.2 : Int))) 0)) =
      Except.ok (some (max ((dateVal e : Int) - (dateVal s : Int)) 0))
    rw [harith]
  refine ⟨max ((dateVal e1 : Int) - (dateVal s : Int)) 0,
          max ((dateVal e2 : Int) - (dateVal s : Int)) 0,
          key e1 h1, key e2 h2, ?_⟩
  apply max_le_max _ le_rfl
  apply sub_le_sub_right
  exact_mod_cast h12

/-- C9 witness. -/
theorem C9_witness :
    ∃ d1 d2 : Int,
      compute_duration (2025, 6) (some "2019") (some "2020-05") = .ok (some d1) ∧
      compute_duration (2025, 6) (some "2019") (some "2021") = .ok (some d2) ∧
      d1 ≤ d2 :=
  C9_compute_duration_mono (2025, 6) "2019" "2020-05" "2021"
    (Or.inl ⟨by decide, by decide, by decide⟩)
    (Or.inr ⟨"2020".data, "05".data, by decide, by decide, by decide, by decide, by decide⟩)
    (Or.inl ⟨by decide, by decide, by decide⟩)
    (by decide)

/-! ### Empty document (C7) -/

/-- C7 counterexample: with an empty page list but nonempty raw_text,
extract_contact falls back to scanning raw_text, so the email field of the
returned contact is set — contact is not fully unset. -/
theorem C7_counterexample :
    ∃ r, link_entities (2025, 1) ⟨[], "a@b.co", "resume.pdf"⟩ [] = .ok r ∧
      r.contact.email = some "a@b.co" :=
  ⟨{ contact := { email := some "a@b.co" }, meta := { source := some "resume.pdf" } },
   rfl, rfl⟩

/-- C7 (amended): for every document with an empty page list AND empty
raw_text (so the raw-text fallback in extract_contact finds no email, phone
or URL), link_entities returns without raising a ResumeOutput whose list
fields are all empty and whose contact is fully unset. -/
theorem C7_amended_empty_doc (now : Nat × Nat) (fp : String)
    (emb : List TokenEmbedding) :
    ∃ m : Meta, link_entities now ⟨[], "", fp⟩ emb =
      .ok { contact := {}, education := [], work_experience := [], skills := [],
            certifications := [], projects := [], publications := [],
            languages := [], other_sections := [], meta := m } := by
  cases emb with
  | nil => exact ⟨{ source := some fp }, rfl⟩
  | cons x xs => exact ⟨_, rfl⟩

/-! ### Serialization round trip (C5): strip and validation fixed points -/

theorem dropWhile_head_false {p : Char → Bool} (l : List Char) :
    l.dropWhile p = [] ∨ ∃ c cs, l.dropWhile p = c :: cs ∧ p c = false := by
  induction l with
  | nil => exact Or.inl rfl
  | cons c cs ih =>
    rw [List.dropWhile_cons]
    by_cases h : p c = true
    · rw [if_pos h]
      exact ih
    · rw [if_neg h]
      exact Or.inr ⟨c, cs, rfl, by simpa using h⟩

theorem dropWhile_eq_self_of_ne {p : Char → Bool} {l : List Char}
    (h : l = [] ∨ ∃ c cs, l = c :: cs ∧ p c = false) : l.dropWhile p = l := by
  rcases h with rfl | ⟨c, cs, rfl, hc⟩
  · rfl
  · rw [List.dropWhile_cons, if_neg (by simp [hc])]

theorem dropWhile_idem {p : Char → Bool} (l : List Char) :
    (l.dropWhile p).dropWhile p = l.dropWhile p :=
  dropWhile_eq_self_of_ne (dropWhile_head_false l)

theorem dropTrailing_idem {p : Char → Bool} (l : List Char) :
    dropTrailing p (dropTrailing p l) = dropTrailing p l := by
  unfold dropTrailing
  rw [List.reverse_reverse, dropWhile_idem]

theorem dropTrailing_prefix {p : Char → Bool} (l : List Char) :
    dropTrailing p l <+: l := by
  apply List.reverse_suffix.mp
  unfold dropTrailing
  rw [List.reverse_reverse]
  exact List.dropWhile_suffix p

theorem stripL_head_false {p : Char → Bool} (l : List Char) :
    stripL p l = [] ∨ ∃ c cs, stripL p l = c :: cs ∧ p c = false := by
  unfold stripL
  rcases dropWhile_head_false (p := p) l with h | ⟨c, cs, h, hc⟩
  · rw [h]
    exact Or.inl rfl
  · rw [h]
    rcases hpre : dropTrailing p (c :: cs) with _ | ⟨c', cs'⟩
    · exact Or.inl rfl
    · right
      have hp := dropTrailing_prefix (p := p) (c :: cs)
      rw [hpre] at hp
      obtain ⟨t, ht⟩ := hp
      rw [List.cons_append] at ht
      injection ht with h1 _
      subst h1
      exact ⟨c', cs', rfl, hc⟩

theorem stripL_idem {p : Char → Bool} (l : List Char) :
    stripL p (stripL p l) = stripL p l := by
  have h1 : (stripL p l).dropWhile p = stripL p l :=
    dropWhile_eq_self_of_ne (stripL_head_false l)
  show dropTrailing p ((stripL p l).dropWhile p) = stripL p l
  rw [h1]
  show dropTrailing p (dropTrailing p (l.dropWhile p)) = dropTrailing p (l.dropWhile p)
  exact dropTrailing_idem _

theorem pyStrip_idem (s : String) : pyStrip (pyStrip s) = pyStrip s := by
  show (⟨stripL isWsChar (stripL isWsChar s.data)⟩ : String) = ⟨stripL isWsChar s.data⟩
  rw [stripL_idem]

/-- A value `_validate_date` returns is a fixed point of the validation
pipeline: it is nonempty, unchanged by `_normalize_present`, and validates to
itself. -/
theorem validate_date_fix {s w : String} (h : validate_date s = .ok (some w)) :
    w ≠ "" ∧ normalizePresent w = w ∧ validate_date w = .ok (some w) := by
  unfold validate_date at h
  by_cases h1 : pyStrip s = ""
  · rw [if_pos h1] at h
    simp at h
  · rw [if_neg h1] at h
    by_cases h2 : lowerStr (pyStrip s) = "present"
    · rw [if_pos h2] at h
      have hw : "Present" = w := by
        injection h with h'
        injection h'
      subst hw
      exact ⟨by decide, rfl, rfl⟩
    · rw [if_neg h2] at h
      by_cases h3 : (pyStrip s).length = 4
      · rw [if_pos h3] at h
        by_cases h4 : parseY4 (pyStrip s) = true
        · rw [if_pos h4] at h
          have hw : pyStrip s = w := by
            injection h with h'
            injection h'
          subst hw
          refine ⟨h1, ?_, ?_⟩
          · unfold normalizePresent
            rw [if_neg h2]
          · unfold validate_date
            rw [pyStrip_idem, if_neg h1, if_neg h2, if_pos h3, if_pos h4]
        · rw [if_neg h4] at h
          simp at h
      · rw [if_neg h3] at h
        cases hp : parseYM (pyStrip s) with
        | none =>
          rw [hp] at h
          simp at h
        | some ym =>
          rw [hp] at h
          have hw : pyStrip s = w := by
            injection h with h'
            injection h'
          subst hw
          refine ⟨h1, ?_, ?_⟩
          · unfold normalizePresent
            rw [if_neg h2]
          · unfold validate_date
            rw [pyStrip_idem, if_neg h1, if_neg h2, if_neg h3, hp]

/-- The start-date post-init step is idempotent on its own output. -/
theorem postDate_idem {d d' : Option String} (h : postDate d = .ok d') :
    postDate d' = .ok d' := by
  cases d with
  | none =>
    have : Except.ok (none : Option String) = .ok d' := h
    injection this with h'
    subst h'
    rfl
  | some s =>
    have h' : (if s = "" then Except.ok (some s) else validate_date s) = .ok d' := h
    by_cases hse : s = ""
    · rw [if_pos hse] at h'
      injection h' with h2
      subst h2
      subst hse
      rfl
    · rw [if_neg hse] at h'
      cases d' with
      | none => rfl
      | some w =>
        obtain ⟨hne, _, hfix⟩ := validate_date_fix h'
        show (if w = "" then Except.ok (some w) else validate_date w) = .ok (some w)
        rw [if_neg hne]
        exact hfix

/-- The end-date post-init step (normalize-present then validate) is
idempotent on its own output. -/
theorem postEndDate_idem {d d' : Option String} (h : postEndDate d = .ok d') :
    postEndDate d' = .ok d' := by
  cases d with
  | none =>
    have : Except.ok (none : Option String) = .ok d' := h
    injection this with h'
    subst h'
    rfl
  | some s =>
    have h' : (if s = "" then Except.ok (some s)
        else validate_date (normalizePresent s)) = .ok d' := h
    by_cases hse : s = ""
    · rw [if_pos hse] at h'
      injection h' with h2
      subst h2
      subst hse
      rfl
    · rw [if_neg hse] at h'
      cases d' with
      | none => rfl
      | some w =>
        obtain ⟨hne, hnp, hfix⟩ := validate_date_fix h'
        show (if w = "" then Except.ok (some w)
            else validate_date (normalizePresent w)) = .ok (some w)
        rw [if_neg hne, hnp]
        exact hfix

/-- Every element of the cleaned list is a nonempty whitespace-stripped
string. -/
theorem cleanStrList_mem {l : List String} {x : String} (hx : x ∈ cleanStrList l) :
    x ≠ "" ∧ pyStrip x = x := by
  unfold cleanStrList at hx
  simp only [List.mem_filterMap] at hx
  obtain ⟨y, _, hxy⟩ := hx
  by_cases hc : (decide (y ≠ "") && decide (pyStrip y ≠ "")) = true
  · rw [if_pos hc] at hxy
    injection hxy with hxy
    subst hxy
    simp only [Bool.and_eq_true, decide_eq_true_eq] at hc
    exact ⟨hc.2, pyStrip_idem y⟩
  · rw [if_neg hc] at hxy
    exact Option.noConfusion hxy

theorem cleanStrList_cons_keep (x : String) (xs : List String)
    (h1 : x ≠ "") (h2 : pyStrip x ≠ "") :
    cleanStrList (x :: xs) = pyStrip x :: cleanStrList xs := by
  unfold cleanStrList
  simp only [List.filterMap_cons]
  rw [if_pos (show (decide (x ≠ "") && decide (pyStrip x ≠ "")) = true by
    simp [h1, h2])]

/-- A list whose members are all nonempty stripped strings is a fixed point
of the cleanup. -/
theorem cleanStrList_fixed : ∀ {l : List String},
    (∀ x ∈ l, x ≠ "" ∧ pyStrip x = x) → cleanStrList l = l
  | [], _ => rfl
  | x :: xs, h => by
    obtain ⟨h1, h2⟩ := h x (List.mem_cons_self x xs)
    have htail := cleanStrList_fixed (fun y hy => h y (List.mem_cons_of_mem x hy))
    rw [cleanStrList_cons_keep x xs h1 (by rw [h2]; exact h1), h2, htail]

theorem cleanStrList_idem (l : List String) :
    cleanStrList (cleanStrList l) = cleanStrList l :=
  cleanStrList_fixed (fun _ hx => cleanStrList_mem hx)

/-- If a decoder inverts an encoder on every member, `mapM` of the decoder
inverts `map` of the encoder. -/
theorem mapM_decode {α : Type} {enc : α → PVal} {dec : PVal → Except Unit α} :
    ∀ {l : List α}, (∀ x ∈ l, dec (enc x) = .ok x) → (l.map enc).mapM dec = .ok l
  | [], _ => rfl
  | x :: xs, h => by
    rw [List.map_cons, List.mapM_cons, h x (List.mem_cons_self x xs),
        mapM_decode (fun y hy => h y (List.mem_cons_of_mem x hy))]
    rfl

/-- Decoding a serialized string list gives back the list. -/
theorem decStrList_map (l : List String) :
    decStrList (some (.arr (l.map PVal.str))) = .ok l :=
  mapM_decode (fun _ _ => rfl)

/-- Every member of a successful `mapM` output is an image of the function. -/
theorem mapM_ok_mem {α β : Type} {f : α → Except Unit β} :
    ∀ {l : List α} {l' : List β}, l.mapM f = .ok l' → ∀ y ∈ l', ∃ x, f x = .ok y
  | [], l', h, y, hy => by
    have h2 : Except.ok ([] : List β) = .ok l' := h
    injection h2 with h3
    subst h3
    exact absurd hy (List.not_mem_nil y)
  | x :: xs, l', h, y, hy => by
    rw [List.mapM_cons] at h
    cases hx : f x with
    | error e =>
      rw [hx] at h
      have h2 : (Except.error e : Except Unit (List β)) = .ok l' := h
      exact Except.noConfusion h2
    | ok y0 =>
      rw [hx] at h
      cases hxs : xs.mapM f with
      | error e =>
        rw [hxs] at h
        have h2 : (Except.error e : Except Unit (List β)) = .ok l' := h
        exact Except.noConfusion h2
      | ok ys =>
        rw [hxs] at h
        have h2 : Except.ok (y0 :: ys) = .ok l' := h
        injection h2 with h3
        subst h3
        rcases List.mem_cons.mp hy with rfl | hmem
        · exact ⟨x, hx⟩
        · exact mapM_ok_mem hxs y hmem

/-- The catch-and-keep date step of Certification/Publication post-init is
idempotent. -/
theorem dateKeepInvalid_idem (d : Option String) :
    dateKeepInvalid (dateKeepInvalid d) = dateKeepInvalid d := by
  cases d with
  | none => rfl
  | some s =>
    show dateKeepInvalid (if s = "" then some s
        else match validate_date s with | .ok v => v | .error _ => some s) =
      dateKeepInvalid (some s)
    by_cases hse : s = ""
    · rw [if_pos hse]
    · rw [if_neg hse]
      cases hv : validate_date s with
      | ok v =>
        cases v with
        | none =>
          show (none : Option String) = if s = "" then some s
              else match validate_date s with | .ok v => v | .error _ => some s
          rw [if_neg hse, hv]
        | some w =>
          obtain ⟨hne, _, hfix⟩ := validate_date_fix hv
          show (if w = "" then some w
              else match validate_date w with | .ok v => v | .error _ => some w) =
            dateKeepInvalid (some s)
          rw [if_neg hne, hfix]
          show some w = if s = "" then some s
              else match validate_date s with | .ok v => v | .error _ => some s
          rw [if_neg hse, hv]
      | error er => rfl

/-- An Education the dataclass constructor produced is a fixed point of the
constructor. -/
theorem education_construct_fix {a : EducationArgs} {e : Education}
    (h : Education.ofArgs a = .ok e) :
    Education.construct e.institution e.degree e.field_of_study e.start_date
      e.end_date e.grade e.location = .ok e := by
  unfold Education.ofArgs Education.construct at h
  cases hsd : postDate a.start_date with
  | error er =>
    rw [hsd] at h
    have h2 : (Except.error er : Except Unit Education) = .ok e := h
    exact Except.noConfusion h2
  | ok sd =>
    rw [hsd] at h
    cases hed : postEndDate a.end_date with
    | error er =>
      rw [hed] at h
      have h2 : (Except.error er : Except Unit Education) = .ok e := h
      exact Except.noConfusion h2
    | ok ed =>
      rw [hed] at h
      have h2 : Except.ok
          ({ institution := a.institution, degree := a.degree,
             field_of_study := a.field_of_study, start_date := sd, end_date := ed,
             grade := a.grade, location := a.location } : Education) = .ok e := h
      injection h2 with h3
      subst h3
      show (do
          let sd2 ← postDate sd
          let ed2 ← postEndDate ed
          pure ({ institution := a.institution, degree := a.degree,
                  field_of_study := a.field_of_study, start_date := sd2,
                  end_date := ed2, grade := a.grade, location := a.location } :
                Education)) =
        Except.ok { institution := a.institution, degree := a.degree,
                    field_of_study := a.field_of_study, start_date := sd,
                    end_date := ed, grade := a.grade, location := a.location }
      rw [postDate_idem hsd, postEndDate_idem hed]
      rfl

/-- A WorkExperience the dataclass constructor produced is a fixed point of
the constructor. -/
theorem work_construct_fix {a : WorkArgs} {w : WorkExperience}
    (h : WorkExperience.ofArgs a = .ok w) :
    WorkExperience.construct w.company w.position w.start_date w.end_date
      w.duration_months w.location w.description = .ok w := by
  unfold WorkExperience.ofArgs WorkExperience.construct at h
  cases hsd : postDate a.start_date with
  | error er =>
    rw [hsd] at h
    have h2 : (Except.error er : Except Unit WorkExperience) = .ok w := h
    exact Except.noConfusion h2
  | ok sd =>
    rw [hsd] at h
    cases hed : postEndDate a.end_date with
    | error er =>
      rw [hed] at h
      have h2 : (Except.error er : Except Unit WorkExperience) = .ok w := h
      exact Except.noConfusion h2
    | ok ed =>
      rw [hed] at h
      have h2 : Except.ok
          ({ company := a.company, position := a.position, start_date := sd,
             end_date := ed, duration_months := a.duration_months,
             location := a.location,
             description := cleanStrList a.description } : WorkExperience) =
          .ok w := h
      injection h2 with h3
      subst h3
      show (do
          let sd2 ← postDate sd
          let ed2 ← postEndDate ed
          pure ({ company := a.company, position := a.position, start_date := sd2,
                  end_date := ed2, duration_months := a.duration_months,
                  location := a.location,
                  description := cleanStrList (cleanStrList a.description) } :
                WorkExperience)) =
        Except.ok { company := a.company, position := a.position,
                    start_date := sd, end_date := ed,
                    duration_months := a.duration_months, location := a.location,
                    description := cleanStrList a.description }
      rw [postDate_idem hsd, postEndDate_idem hed, cleanStrList_idem]
      rfl

/-- A Project the dataclass constructor produced is a fixed point of the
constructor. -/
theorem project_construct_fix {a : ProjectArgs} {p : Project}
    (h : Project.ofArgs a = .ok p) :
    Project.construct p.name p.role p.start_date p.end_date p.description
      p.technologies = .ok p := by
  unfold Project.ofArgs Project.construct at h
  cases hsd : postDate a.start_date with
  | error er =>
    rw [hsd] at h
    have h2 : (Except.error er : Except Unit Project) = .ok p := h
    exact Except.noConfusion h2
  | ok sd =>
    rw [hsd] at h
    cases hed : postEndDate a.end_date with
    | error er =>
      rw [hed] at h
      have h2 : (Except.error er : Except Unit Project) = .ok p := h
      exact Except.noConfusion h2
    | ok ed =>
      rw [hed] at h
      have h2 : Except.ok
          ({ name := a.name, role := a.role, start_date := sd, end_date := ed,
             description := a.description,
             technologies := cleanStrList a.technologies } : Project) = .ok p := h
      injection h2 with h3
      subst h3
      show (do
          let sd2 ← postDate sd
          let ed2 ← postEndDate ed
          pure ({ name := a.name, role := a.role, start_date := sd2,
                  end_date := ed2, description := a.description,
                  technologies := cleanStrList (cleanStrList a.technologies) } :
                Project)) =
        Except.ok { name := a.name, role := a.role, start_date := sd,
                    end_date := ed, description := a.description,
                    technologies := cleanStrList a.technologies }
      rw [postDate_idem hsd, postEndDate_idem hed, cleanStrList_idem]
      rfl

/-- A Certification the dataclass constructor produced is a fixed point of
the constructor. -/
theorem cert_construct_fix (a : CertArgs) :
    Certification.construct (Certification.ofArgs a).name
      (Certification.ofArgs a).issuer (Certification.ofArgs a).date =
      Certification.ofArgs a := by
  show ({ name := a.name, issuer := a.issuer,
          date := dateKeepInvalid (dateKeepInvalid a.date) } : Certification) =
    { name := a.name, issuer := a.issuer, date := dateKeepInvalid a.date }
  rw [dateKeepInvalid_idem]

/-- A Publication the dataclass constructor produced is a fixed point of the
constructor. -/
theorem pub_construct_fix (a : PubArgs) :
    Publication.construct (Publication.ofArgs a).title
      (Publication.ofArgs a).venue (Publication.ofArgs a).date
      (Publication.ofArgs a).description = Publication.ofArgs a := by
  show ({ title := a.title, venue := a.venue,
          date := dateKeepInvalid (dateKeepInvalid a.date),
          description := a.description } : Publication) =
    { title := a.title, venue := a.venue, date := dateKeepInvalid a.date,
      description := a.description }
  rw [dateKeepInvalid_idem]

/-- `Contact(**asdict(c))` reproduces the contact. -/
theorem decodeContact_to_dict (c : Contact) :
    decodeContact (Contact.to_dict c) = .ok c := by
  obtain ⟨n, e, p, w, l, r⟩ := c
  cases n <;> cases e <;> cases p <;> cases w <;> cases l <;> cases r <;> rfl

theorem decodeSkill_to_dict (x : Skill) :
    decodeSkill (Skill.to_dict x) = .ok x := by
  obtain ⟨n, c, p⟩ := x
  cases n <;> cases c <;> cases p <;> rfl

theorem decodeLanguage_to_dict (x : Language) :
    decodeLanguage (Language.to_dict x) = .ok x := by
  obtain ⟨n, p⟩ := x
  cases n <;> cases p <;> rfl

theorem decodeOther_to_dict (x : OtherSection) :
    decodeOther (OtherSection.to_dict x) = .ok x := by
  obtain ⟨l, c⟩ := x
  cases l <;> cases c <;> rfl

/-- `Meta(**m.to_dict())`: the dropped None keys fall back to the dataclass
defaults, reproducing the value. -/
theorem decodeMeta_to_dict (x : Meta) :
    decodeMeta (Meta.to_dict x) = .ok x := by
  obtain ⟨so, no⟩ := x
  cases so <;> cases no <;> rfl

/-- `Education(**asdict(e))` reproduces an education entry that is a fixed
point of the constructor. -/
theorem decodeEducation_to_dict (e : Education)
    (hfix : Education.construct e.institution e.degree e.field_of_study
      e.start_date e.end_date e.grade e.location = .ok e) :
    decodeEducation (Education.to_dict e) = .ok e := by
  obtain ⟨i, d, f, sd, ed, g, l⟩ := e
  cases i <;> cases d <;> cases f <;> cases sd <;> cases ed <;> cases g <;>
    cases l <;> exact hfix

theorem decodeWork_to_dict_eq (c p sd ed : Option String) (dm : Option Int)
    (loc : Option String) (desc : List String) :
    decodeWork (WorkExperience.to_dict ⟨c, p, sd, ed, dm, loc, desc⟩) =
      WorkExperience.construct c p sd ed dm loc desc := by
  cases c <;> cases p <;> cases sd <;> cases ed <;> cases dm <;> cases loc <;>
    (show (decStrList (some (.arr (desc.map PVal.str))) >>= fun dd =>
        WorkExperience.construct _ _ _ _ _ _ dd) =
      WorkExperience.construct _ _ _ _ _ _ desc
     rw [decStrList_map]
     rfl)

/-- `WorkExperience(**asdict(w))` reproduces a work entry that is a fixed
point of the constructor. -/
theorem decodeWork_to_dict (w : WorkExperience)
    (hfix : WorkExperience.construct w.company w.position w.start_date w.end_date
      w.duration_months w.location w.description = .ok w) :
    decodeWork (WorkExperience.to_dict w) = .ok w := by
  obtain ⟨c, p, sd, ed, dm, loc, desc⟩ := w
  rw [decodeWork_to_dict_eq]
  exact hfix

theorem decodeProject_to_dict_eq (n r sd ed d : Option String)
    (te : List String) :
    decodeProject (Project.to_dict ⟨n, r, sd, ed, d, te⟩) =
      Project.construct n r sd ed d te := by
  cases n <;> cases r <;> cases sd <;> cases ed <;> cases d <;>
    (show (decStrList (some (.arr (te.map PVal.str))) >>= fun tt =>
        Project.construct _ _ _ _ _ tt) =
      Project.construct _ _ _ _ _ te
     rw [decStrList_map]
     rfl)

/-- `Project(**asdict(p))` reproduces a project entry that is a fixed point
of the constructor. -/
theorem decodeProject_to_dict (p : Project)
    (hfix : Project.construct p.name p.role p.start_date p.end_date
      p.description p.technologies = .ok p) :
    decodeProject (Project.to_dict p) = .ok p := by
  obtain ⟨n, r, sd, ed, d, te⟩ := p
  rw [decodeProject_to_dict_eq]
  exact hfix

/-- `Certification(**asdict(c))` reproduces a certification that is a fixed
point of the constructor. -/
theorem decodeCertification_to_dict (c : Certification)
    (hfix : Certification.construct c.name c.issuer c.date = c) :
    decodeCertification (Certification.to_dict c) = .ok c := by
  obtain ⟨n, i, d⟩ := c
  cases n <;> cases i <;> cases d <;> exact congrArg Except.ok hfix

/-- `Publication(**asdict(p))` reproduces a publication that is a fixed point
of the constructor. -/
theorem decodePublication_to_dict (p : Publication)
    (hfix : Publication.construct p.title p.venue p.date p.description = p) :
    decodePublication (Publication.to_dict p) = .ok p := by
  obtain ⟨t, v, d, de⟩ := p
  cases t <;> cases v <;> cases d <;> cases de <;> exact congrArg Except.ok hfix

/-- C5: serialization round trip — for every ResumeOutput the pipeline can
construct (every dataclass constructor call succeeds), `from_dict` applied to
`to_dict` reproduces a structurally equal value. -/
theorem C5_roundtrip (c : Contact) (es : List EducationArgs) (ws : List WorkArgs)
    (sk : List Skill) (cs : List CertArgs) (ps : List ProjectArgs)
    (pb : List PubArgs) (ls : List Language) (ot : List OtherSection) (m : Meta)
    (r : ResumeOutput)
    (h : buildResume c es ws sk cs ps pb ls ot m = .ok r) :
    ResumeOutput.from_dict (ResumeOutput.to_dict r) = .ok r := by
  unfold buildResume at h
  cases hed : es.mapM Education.ofArgs with
  | error er =>
    rw [hed] at h
    have h2 : (Except.error er : Except Unit ResumeOutput) = .ok r := h
    exact Except.noConfusion h2
  | ok ed =>
    rw [hed] at h
    cases hwk : ws.mapM WorkExperience.ofArgs with
    | error er =>
      rw [hwk] at h
      have h2 : (Except.error er : Except Unit ResumeOutput) = .ok r := h
      exact Except.noConfusion h2
    | ok wk =>
      rw [hwk] at h
      cases hpj : ps.mapM Project.ofArgs with
      | error er =>
        rw [hpj] at h
        have h2 : (Except.error er : Except Unit ResumeOutput) = .ok r := h
        exact Except.noConfusion h2
      | ok pj =>
        rw [hpj] at h
        have h2 : Except.ok
            ({ contact := c, education := ed, work_experience := wk,
               skills := sk, certifications := cs.map Certification.ofArgs,
               projects := pj, publications := pb.map Publication.ofArgs,
               languages := ls, other_sections := ot, meta := m } :
             ResumeOutput) = .ok r := h
        injection h2 with h3
        subst h3
        show (do
            let c2 ← decodeContact (Contact.to_dict c)
            let ed2 ← (ed.map Education.to_dict).mapM decodeEducation
            let wk2 ← (wk.map WorkExperience.to_dict).mapM decodeWork
            let sk2 ← (sk.map Skill.to_dict).mapM decodeSkill
            let cc2 ← ((cs.map Certification.ofArgs).map
              Certification.to_dict).mapM decodeCertification
            let pj2 ← (pj.map Project.to_dict).mapM decodeProject
            let pb2 ← ((pb.map Publication.ofArgs).map
              Publication.to_dict).mapM decodePublication
            let ls2 ← (ls.map Language.to_dict).mapM decodeLanguage
            let ot2 ← (ot.map OtherSection.to_dict).mapM decodeOther
            let m2 ← decodeMeta (Meta.to_dict m)
            pure ({ contact := c2, education := ed2, work_experience := wk2,
                    skills := sk2, certifications := cc2, projects := pj2,
                    publications := pb2, languages := ls2, other_sections := ot2,
                    meta := m2 } : ResumeOutput)) =
          Except.ok { contact := c, education := ed, work_experience := wk,
                      skills := sk, certifications := cs.map Certification.ofArgs,
                      projects := pj, publications := pb.map Publication.ofArgs,
                      languages := ls, other_sections := ot, meta := m }
        rw [decodeContact_to_dict,
            mapM_decode (fun x hx => by
              obtain ⟨a, ha⟩ := mapM_ok_mem hed x hx
              exact decodeEducation_to_dict x (education_construct_fix ha)),
            mapM_decode (fun x hx => by
              obtain ⟨a, ha⟩ := mapM_ok_mem hwk x hx
              exact decodeWork_to_dict x (work_construct_fix ha)),
            mapM_decode (fun x _ => decodeSkill_to_dict x),
            mapM_decode (fun x hx => by
              obtain ⟨a, _, ha⟩ := List.mem_map.mp hx
              exact decodeCertification_to_dict x (ha ▸ cert_construct_fix a)),
            mapM_decode (fun x hx => by
              obtain ⟨a, ha⟩ := mapM_ok_mem hpj x hx
              exact decodeProject_to_dict x (project_construct_fix ha)),
            mapM_decode (fun x hx => by
              obtain ⟨a, _, ha⟩ := List.mem_map.mp hx
              exact decodePublication_to_dict x (ha ▸ pub_construct_fix a)),
            mapM_decode (fun x _ => decodeLanguage_to_dict x),
            mapM_decode (fun x _ => decodeOther_to_dict x),
            decodeMeta_to_dict]
        rfl

/-- C5 witness: a concrete resume (validated education dates, an invalid
certification date kept by the catch clause) survives the round trip. -/
theorem C5_witness :
    ResumeOutput.from_dict (ResumeOutput.to_dict
      { contact := { name := some "Ada" },
        education := [{ institution := some "MIT", start_date := some "2018",
                        end_date := some "Present" }],
        skills := [{ name := some "python" }],
        certifications := [{ name := some "Cert", date := some "2020-13" }],
        meta := { source := some "unit" } }) =
    .ok { contact := { name := some "Ada" },
          education := [{ institution := some "MIT", start_date := some "2018",
                          end_date := some "Present" }],
          skills := [{ name := some "python" }],
          certifications := [{ name := some "Cert", date := some "2020-13" }],
          meta := { source := some "unit" } } :=
  C5_roundtrip { name := some "Ada" }
    [{ institution := some "MIT", start_date := some "2018",
       end_date := some "present" }]
    [] [{ name := some "python" }]
    [{ name := some "Cert", date := some "2020-13" }]
    [] [] [] [] { source := some "unit" } _ rfl

end Resume
